import Mathlib

/-!
Shallow embedding of the `ringbuf` fixed-capacity circular byte buffer.

The repository contains two near-duplicate implementations:
* `src/ringbuf.c` (namespace `V1` below): separate `ringbuf_write` /
  `ringbuf_writeForce` entry points and a best-effort `ringbuf_read`;
* `src/unnamed/part_000` (namespace `V2` below): one `ringbuf_write`
  taking a `force` flag, and a `ringbuf_read` taking a `strictRead` flag.
The remaining functions (`remove`, `modify`, `peek`, `updatePointer`,
`memset`, `strlen`, `strchr`, `strstr`, queries, construction) are
textually identical in both files and are embedded once, at top level.

Modelling conventions:
* The C struct fields `arr` (uint8_t pointer), `size`, `used`, `front`,
  `rear` (all uint16_t) become a `List Nat` plus four `Nat` fields.
* All C index arithmetic such as `(obj->rear + 1) % obj->size` is
  performed after integer promotion to `int` in C, and the operands are
  bounded by `2 * 65535 + 1`, so it never overflows; it is embedded as
  plain `Nat` arithmetic.  The one exception is `obj->used++` inside
  `ringbuf_writeForce` in `src/ringbuf.c`: there the incremented value is
  stored back into the 16-bit field before being compared against
  `obj->size`, so the stored value is `(used + 1) % 65536`; the embedding
  keeps that reduction explicit.
* `uint8_t` array cells hold the written payload values unchanged, so
  byte values are embedded as `Nat` (no byte arithmetic occurs).
* Pointer-validity guards (`obj == NULL`, `pdata == NULL`) have no
  counterpart in the embedding; the `length` parameter of the C calls
  that take a payload pointer is `pdata.length` here, so the C guard
  `length == 0` becomes `pdata = []`.
* C functions that fill a caller buffer and return a count are embedded
  as functions returning the new state together with the produced bytes
  and/or the C return value.
-/

/-- The `ringbuf_t` struct of `ringbuf.h`: storage pointer, capacity,
number of used bytes, read cursor and write cursor. -/
structure Ringbuf where
  arr : List Nat
  size : Nat
  used : Nat
  front : Nat
  rear : Nat
deriving DecidableEq

/-- Read a storage cell; in C this is `obj->arr[i]` (always called with
`i` already reduced modulo `obj->size`). -/
def byteAt (l : List Nat) (i : Nat) : Nat := (l[i]?).getD 0

/-- The logical contents of the buffer: the `used` bytes starting at
`front`, wrapping through the storage modulo `size`. -/
def contents (obj : Ringbuf) : List Nat :=
  (List.range obj.used).map (fun i => byteAt obj.arr ((obj.front + i) % obj.size))

/-- The valid bytes from relative position `k` on, `n` of them. -/
def tailBytes (obj : Ringbuf) (k n : Nat) : List Nat :=
  (List.range n).map (fun i => byteAt obj.arr ((obj.front + (k + i)) % obj.size))

/-- Well-formedness of a buffer state: positive capacity, cursors within
the storage, and storage of exactly `size` cells. -/
def WF (obj : Ringbuf) : Prop :=
  0 < obj.size ∧ obj.used ≤ obj.size ∧ obj.front < obj.size ∧
    obj.rear < obj.size ∧ obj.arr.length = obj.size

/-- The ring invariant of the spec: `rear == (front + used) mod capacity`
and `0 <= used <= capacity`. -/
def CursorInv (obj : Ringbuf) : Prop :=
  obj.rear = (obj.front + obj.used) % obj.size ∧ obj.used ≤ obj.size

instance (obj : Ringbuf) : Decidable (WF obj) := by
  unfold WF
  infer_instance

instance (obj : Ringbuf) : Decidable (CursorInv obj) := by
  unfold CursorInv
  infer_instance

/-- `ringbuf_init`: binds caller storage, zeroes the cursors; fails on
`size == 0` (the `NULL` checks have no counterpart here). -/
def ringbuf_init (arr : List Nat) (size : Nat) : Option Ringbuf :=
  if size = 0 then none
  else some { arr := arr, size := size, used := 0, front := 0, rear := 0 }

/-- `ringbuf_getUsedLength`. -/
def ringbuf_getUsedLength (obj : Ringbuf) : Nat := obj.used

/-- `ringbuf_isEmpty`: `obj->used == 0`. -/
def ringbuf_isEmpty (obj : Ringbuf) : Bool := obj.used == 0

/-- `ringbuf_isFull`: `obj->used >= obj->size`. -/
def ringbuf_isFull (obj : Ringbuf) : Bool := obj.size ≤ obj.used

namespace V1

/-- The loop body of `ringbuf_write` in `src/ringbuf.c`, iterated over
the bytes that will actually be stored:
`arr[rear] = pdata[len]; rear = (rear + 1) % size; used++;`. -/
def writeLoop : Ringbuf → List Nat → Ringbuf
  | obj, [] => obj
  | obj, b :: rest =>
      writeLoop
        { obj with
          arr := obj.arr.set obj.rear b
          rear := (obj.rear + 1) % obj.size
          used := obj.used + 1 }
        rest

/-- `ringbuf_write` of `src/ringbuf.c`: writes
`min(length, size - used)` bytes (silent truncation), returns the count
actually written. -/
def ringbuf_write (obj : Ringbuf) (pdata : List Nat) : Ringbuf × Nat :=
  if pdata = [] ∨ obj.size = 0 then (obj, 0)
  else
    let space := obj.size - obj.used
    let len := min pdata.length space
    (writeLoop obj (pdata.take len), len)

/-- One iteration of the `ringbuf_writeForce` loop of `src/ringbuf.c`.
`obj->used++` stores into the 16-bit field, hence the `% 65536`; the
following comparison `obj->used > obj->size` reads that stored value. -/
def wfStep (obj : Ringbuf) (b : Nat) : Ringbuf :=
  let obj1 : Ringbuf :=
    { obj with
      arr := obj.arr.set obj.rear b
      rear := (obj.rear + 1) % obj.size
      used := (obj.used + 1) % 65536 }
  if obj1.size < obj1.used then
    { obj1 with front := (obj1.front + 1) % obj1.size, used := obj1.size }
  else obj1

/-- `ringbuf_writeForce` of `src/ringbuf.c`: stores every requested byte
(evicting the oldest data as needed) and returns the requested length. -/
def ringbuf_writeForce (obj : Ringbuf) (pdata : List Nat) : Ringbuf × Nat :=
  if pdata = [] ∨ obj.size = 0 then (obj, 0)
  else (pdata.foldl wfStep obj, pdata.length)

end V1

/-- The read loop shared by both `ringbuf_read` variants:
`pdata[i] = arr[front]; front = (front + 1) % size;` repeated
`readLength` times.  Returns the new state and the copied bytes. -/
def readLoop : Ringbuf → Nat → Ringbuf × List Nat
  | obj, 0 => (obj, [])
  | obj, n + 1 =>
      let b := byteAt obj.arr obj.front
      let next := readLoop { obj with front := (obj.front + 1) % obj.size } n
      (next.1, b :: next.2)

namespace V1

/-- `ringbuf_read` of `src/ringbuf.c`: best-effort read of
`min(length, used)` bytes; consumed bytes are removed. -/
def ringbuf_read (obj : Ringbuf) (length : Nat) : Ringbuf × List Nat × Nat :=
  if length = 0 ∨ obj.used = 0 then (obj, [], 0)
  else
    let readLength := if length ≤ obj.used then length else obj.used
    let r := readLoop obj readLength
    ({ r.1 with used := obj.used - readLength }, r.2, readLength)

end V1

namespace V2

/-- The write loop of `ringbuf_write` in `src/unnamed/part_000`: stores
bytes and advances `rear` but, unlike `V1.writeLoop`, does not touch
`used` (that file updates `used` once, after the loop). -/
def writeLoop : Ringbuf → List Nat → Ringbuf
  | obj, [] => obj
  | obj, b :: rest =>
      writeLoop
        { obj with
          arr := obj.arr.set obj.rear b
          rear := (obj.rear + 1) % obj.size }
        rest

/-- `ringbuf_write` of `src/unnamed/part_000`: rejects the whole request
(returns 0) when `length` exceeds `space`, where `space` is the whole
capacity under `force` and the free space otherwise; in the force case a
request larger than the free space evicts the oldest bytes by advancing
`front` by the overlap `cover_len`. -/
def ringbuf_write (obj : Ringbuf) (pdata : List Nat) (force : Bool) : Ringbuf × Nat :=
  if pdata = [] ∨ obj.size = 0 then (obj, 0)
  else
    let space := if force then obj.size else obj.size - obj.used
    if space < pdata.length then (obj, 0)
    else
      let written := min pdata.length space
      let obj1 := writeLoop obj (pdata.take written)
      if force = true ∧ obj.size - obj.used < written then
        ({ obj1 with
            front := (obj.front + (written - (obj.size - obj.used))) % obj.size
            used := obj.size }, written)
      else
        ({ obj1 with used := obj.used + written }, written)

/-- `ringbuf_read` of `src/unnamed/part_000`: like `V1.ringbuf_read` but
with an all-or-nothing mode: under `strictRead`, a request for more than
`used` bytes reads nothing and returns 0. -/
def ringbuf_read (obj : Ringbuf) (length : Nat) (strictRead : Bool) :
    Ringbuf × List Nat × Nat :=
  if length = 0 ∨ obj.used = 0 then (obj, [], 0)
  else if strictRead = true ∧ obj.used < length then (obj, [], 0)
  else
    let readLength := if obj.used < length then obj.used else length
    let r := readLoop obj readLength
    ({ r.1 with used := obj.used - readLength }, r.2, readLength)

end V2

/-- `ringbuf_remove` (identical in both files).  Positive `length`
discards from the front, negative from the rear; a request of at least
`used` bytes empties the buffer and zeroes all cursors.  The negative
branch computes `(rear + size + length) % size` and `used += length` in
C `int` arithmetic; both quantities are non-negative in that branch. -/
def ringbuf_remove (obj : Ringbuf) (length : Int) : Ringbuf × Nat :=
  if length = 0 ∨ obj.used = 0 then (obj, 0)
  else if obj.used ≤ length.natAbs then
    ({ obj with front := 0, rear := 0, used := 0 }, obj.used)
  else if 0 < length then
    ({ obj with
        front := (obj.front + length.toNat) % obj.size
        used := obj.used - length.toNat }, length.toNat)
  else
    ({ obj with
        rear := ((obj.rear : Int) + (obj.size : Int) + length).toNat % obj.size
        used := ((obj.used : Int) + length).toNat }, length.natAbs)

/-- The loop of `ringbuf_modify`:
`arr[(start_pos + i) % size] = pdata[i]`. -/
def modifyLoop (size start_pos : Nat) : List Nat → List Nat → Nat → List Nat
  | arr, [], _ => arr
  | arr, b :: rest, i => modifyLoop size start_pos (arr.set ((start_pos + i) % size) b) rest (i + 1)

/-- `ringbuf_modify` (identical in both files up to parameter order):
overwrites `pdata.length` already-stored bytes starting at relative
`index`; fails when the range is not fully inside the used region. -/
def ringbuf_modify (obj : Ringbuf) (index : Nat) (pdata : List Nat) : Ringbuf × Bool :=
  if obj.used ≤ index ∨ obj.used - index < pdata.length ∨ obj.size = 0 then (obj, false)
  else
    let start_pos := (obj.front + index) % obj.size
    ({ obj with arr := modifyLoop obj.size start_pos obj.arr pdata 0 }, true)

/-- `ringbuf_peek` (identical in both files up to parameter order):
read-only copy of `length` stored bytes starting at relative `index`;
the state is never modified. -/
def ringbuf_peek (obj : Ringbuf) (index length : Nat) : Option (List Nat) :=
  if obj.used ≤ index ∨ obj.used - index < length ∨ obj.size = 0 then none
  else
    let start_pos := (obj.front + index) % obj.size
    some ((List.range length).map (fun i => byteAt obj.arr ((start_pos + i) % obj.size)))

/-- `ringbuf_updatePointer` (identical in both files): reduces all three
inputs modulo `size`, computes the implied span `len` between `front`
and `rear`, and commits the three cursors only if `len` matches `used`
(or the `len == 0 && used == size` special case holds). -/
def ringbuf_updatePointer (obj : Ringbuf) (front rear used : Nat) : Ringbuf × Bool :=
  if obj.size < used then (obj, false)
  else
    let front' := front % obj.size
    let rear' := rear % obj.size
    let used' := used % obj.size
    let len := if front' ≤ rear' then rear' - front' else obj.size - front' + rear'
    if len ≠ used' ∧ ¬(len = 0 ∧ used' = obj.size) then (obj, false)
    else ({ obj with front := front', rear := rear', used := used' }, true)

/-- The loop of `ringbuf_memset`:
`arr[start] = value; start = (start + 1) % size;`. -/
def memsetLoop (size value : Nat) : List Nat → Nat → Nat → List Nat
  | arr, _, 0 => arr
  | arr, start, n + 1 => memsetLoop size value (arr.set start value) ((start + 1) % size) n

/-- `ringbuf_memset` (identical in both files): raw fill of up to
`min(length, size)` cells starting at relative `index`; cursors are
never touched. -/
def ringbuf_memset (obj : Ringbuf) (index value length : Nat) : Ringbuf × Nat :=
  if length = 0 ∨ obj.size ≤ index then (obj, 0)
  else
    let start := (obj.front + index) % obj.size
    let length' := if length ≤ obj.size then length else obj.size
    ({ obj with arr := memsetLoop obj.size value obj.arr start length' }, length')

/-- The `ringbuf_strlen` loop: counts cells until a zero byte, scanning
at most `used` cells in total (the fuel); the scan position wraps. -/
def strlenGo (obj : Ringbuf) : Nat → Nat → Nat
  | _, 0 => 0
  | start, fuel + 1 =>
      if byteAt obj.arr start = 0 then 0
      else strlenGo obj ((start + 1) % obj.size) fuel + 1

/-- `ringbuf_strlen` (identical in both files). -/
def ringbuf_strlen (obj : Ringbuf) (index : Nat) : Nat :=
  if obj.used ≤ index then 0
  else strlenGo obj ((obj.front + index) % obj.size) obj.used

/-- The `ringbuf_strchr` loop: the C loop runs while `count < used`, so
starting from `count` it has `used - count` iterations left, which is
the structural fuel here.  On a hit it returns `(index + count) % used`
like the C code. -/
def strchrGo (obj : Ringbuf) (index ch : Nat) : Nat → Nat → Nat → Int
  | _, _, 0 => -1
  | start, count, fuel + 1 =>
      if byteAt obj.arr start = ch then ((index + count) % obj.used : Nat)
      else strchrGo obj index ch ((start + 1) % obj.size) (count + 1) fuel

/-- `ringbuf_strchr` (identical in both files). -/
def ringbuf_strchr (obj : Ringbuf) (index ch : Nat) : Int :=
  if obj.used ≤ index then -1
  else strchrGo obj index ch ((obj.front + index) % obj.size) 0 obj.used

/-- The inner comparison loop of `ringbuf_strstr`:
`arr[(start + i) % size] == substring[i]` for each pattern byte. -/
def strstrMatchAt (obj : Ringbuf) (start : Nat) : List Nat → Nat → Bool
  | [], _ => true
  | c :: rest, i =>
      if byteAt obj.arr ((start + i) % obj.size) = c then strstrMatchAt obj start rest (i + 1)
      else false

/-- The outer `ringbuf_strstr` loop; it runs while
`index + count + substring_len <= used`, so `used + 1` steps of fuel
are enough (`count` grows by one per step). -/
def strstrGo (obj : Ringbuf) (index m : Nat) (sub : List Nat) : Nat → Nat → Nat → Int
  | _, _, 0 => -1
  | start, count, fuel + 1 =>
      if obj.used < index + count + m then -1
      else if strstrMatchAt obj start sub 0 then ((index + count) % obj.used : Nat)
      else strstrGo obj index m sub ((start + 1) % obj.size) (count + 1) fuel

/-- `ringbuf_strstr` (identical in both files); the pattern is the
null-terminated C string, embedded as the list of its bytes. -/
def ringbuf_strstr (obj : Ringbuf) (index : Nat) (sub : List Nat) : Int :=
  if obj.used ≤ index then -1
  else strstrGo obj index sub.length sub ((obj.front + index) % obj.size) 0 (obj.used + 1)

/-- The first index of `ch` in `l`, or `-1`: the search result promised
by the spec for `find_byte` (spec §4.7). -/
def firstIdx (l : List Nat) (ch : Nat) : Int :=
  match l with
  | [] => -1
  | b :: rest =>
      if b = ch then 0
      else if firstIdx rest ch < 0 then -1 else firstIdx rest ch + 1

/-- One engine operation, for the reachability statement of the
invariant claim.  The query/scan functions (`getUsedLength`, `isEmpty`,
`isFull`, `peek`, `strlen`, `strchr`, `strstr`) never assign to any
field of the object in either source file, so applying them leaves the
state unchanged. -/
inductive Op where
  | writeV1 (pdata : List Nat)
  | writeForceV1 (pdata : List Nat)
  | writeV2 (pdata : List Nat) (force : Bool)
  | readV1 (length : Nat)
  | readV2 (length : Nat) (strict : Bool)
  | removeOp (length : Int)
  | modifyOp (index : Nat) (pdata : List Nat)
  | memsetOp (index value length : Nat)
  | updateOp (front rear used : Nat)
  | peekOp (index length : Nat)
  | strlenOp (index : Nat)
  | strchrOp (index ch : Nat)
  | strstrOp (index : Nat) (sub : List Nat)

/-- The state transformation of one engine operation. -/
def applyOp (obj : Ringbuf) : Op → Ringbuf
  | .writeV1 pdata => (V1.ringbuf_write obj pdata).1
  | .writeForceV1 pdata => (V1.ringbuf_writeForce obj pdata).1
  | .writeV2 pdata force => (V2.ringbuf_write obj pdata force).1
  | .readV1 length => (V1.ringbuf_read obj length).1
  | .readV2 length strict => (V2.ringbuf_read obj length strict).1
  | .removeOp length => (ringbuf_remove obj length).1
  | .modifyOp index pdata => (ringbuf_modify obj index pdata).1
  | .memsetOp index value length => (ringbuf_memset obj index value length).1
  | .updateOp front rear used => (ringbuf_updatePointer obj front rear used).1
  | .peekOp _ _ => obj
  | .strlenOp _ => obj
  | .strchrOp _ _ => obj
  | .strstrOp _ _ => obj

/-- A sequence of engine operations applied in order. -/
def applyOps (obj : Ringbuf) (ops : List Op) : Ringbuf :=
  ops.foldl applyOp obj

/-! ## Basic lemmas about storage cells, contents and modular indices -/

theorem byteAt_set_self (l : List Nat) (i b : Nat) (h : i < l.length) :
    byteAt (l.set i b) i = b := by
  simp [byteAt, List.getElem?_set_self, h]

theorem byteAt_set_ne (l : List Nat) (i j b : Nat) (h : i ≠ j) :
    byteAt (l.set i b) j = byteAt l j := by
  simp [byteAt, List.getElem?_set_ne h]

theorem contents_length (obj : Ringbuf) : (contents obj).length = obj.used := by
  simp [contents]

/-- Positions `a + i` and `a + j` with `i, j < n` collide modulo `n` only
when `i = j`. -/
theorem mod_inj_of_lt {n i j a : Nat} (hi : i < n) (hj : j < n)
    (h : (a + i) % n = (a + j) % n) : i = j := by
  have h2 : i ≡ j [MOD n] := Nat.ModEq.add_left_cancel' a h
  have h3 : i % n = j % n := h2
  rwa [Nat.mod_eq_of_lt hi, Nat.mod_eq_of_lt hj] at h3

theorem drop_range_map (f : Nat → Nat) (k n : Nat) (h : k ≤ n) :
    List.drop k ((List.range n).map f) = (List.range (n - k)).map (fun i => f (k + i)) := by
  rw [← List.map_drop]
  have hn : n = k + (n - k) := by omega
  rw [hn, List.range_add, List.drop_append_of_le_length (by simp)]
  have hnil : List.drop k (List.range k) = [] := by
    have := List.drop_length (List.range k)
    simp only [List.length_range] at this
    exact this
  rw [hnil]
  simp [List.map_map, Function.comp]

theorem take_range_map (f : Nat → Nat) (k n : Nat) (h : k ≤ n) :
    List.take k ((List.range n).map f) = (List.range k).map f := by
  rw [← List.map_take, List.take_range, Nat.min_eq_left h]

theorem tailBytes_succ (obj : Ringbuf) (k n : Nat) :
    tailBytes obj k (n + 1) =
      byteAt obj.arr ((obj.front + k) % obj.size) :: tailBytes obj (k + 1) n := by
  simp only [tailBytes, List.range_succ_eq_map, List.map_cons, List.map_map]
  congr 1
  apply List.map_congr_left
  intro a _
  simp only [Function.comp, Nat.succ_eq_add_one]
  have hn : obj.front + (k + (a + 1)) = obj.front + (k + 1 + a) := by omega
  rw [hn]

theorem tailBytes_zero (obj : Ringbuf) : tailBytes obj 0 obj.used = contents obj := by
  simp [tailBytes, contents]

/-! ## Contents of the buffer after storing one byte at `rear` -/

/-- Storing a byte at `rear` in a non-full buffer appends it to the
logical contents. -/
theorem contents_push (obj : Ringbuf) (b : Nat) (h0 : 0 < obj.size)
    (hlen : obj.arr.length = obj.size)
    (hinv : obj.rear = (obj.front + obj.used) % obj.size)
    (hu : obj.used < obj.size) :
    contents { obj with
        arr := obj.arr.set obj.rear b
        rear := (obj.rear + 1) % obj.size
        used := obj.used + 1 } = contents obj ++ [b] := by
  have hrlt : obj.rear < obj.arr.length := by
    rw [hlen, hinv]; exact Nat.mod_lt _ h0
  simp only [contents]
  rw [List.range_succ, List.map_append]
  congr 1
  · apply List.map_congr_left
    intro i hi
    rw [List.mem_range] at hi
    apply byteAt_set_ne
    rw [hinv]
    intro hEq
    have : obj.used = i := mod_inj_of_lt hu (lt_trans hi hu) hEq
    omega
  · simp only [List.map_cons, List.map_nil]
    rw [← hinv, byteAt_set_self _ _ _ hrlt]

/-- Storing a byte at `rear` in a full buffer drops the oldest logical
byte and appends the new one (`front` advances by one). -/
theorem contents_evict (obj : Ringbuf) (b : Nat) (h0 : 0 < obj.size)
    (hlen : obj.arr.length = obj.size)
    (hinv : obj.rear = (obj.front + obj.used) % obj.size)
    (hu : obj.used = obj.size) :
    contents { obj with
        arr := obj.arr.set obj.rear b
        rear := (obj.rear + 1) % obj.size
        front := (obj.front + 1) % obj.size
        used := obj.size } = (contents obj).drop 1 ++ [b] := by
  obtain ⟨m, hm⟩ : ∃ m, obj.size = m + 1 := ⟨obj.size - 1, by omega⟩
  have hrear : obj.rear = obj.front % obj.size := by
    rw [hinv, hu]; rw [Nat.add_mod_right]
  have hrlt : obj.rear < obj.arr.length := by
    rw [hlen, hrear]; exact Nat.mod_lt _ h0
  simp only [contents, hu]
  have hr : List.range obj.size = List.range m ++ [m] := by
    rw [hm]; exact List.range_succ m
  have hr2 : List.range obj.size = 0 :: (List.range m).map Nat.succ := by
    rw [hm]; exact List.range_succ_eq_map m
  conv_lhs => rw [hr]
  conv_rhs => rw [hr2]
  rw [List.map_append, List.drop_one]
  simp only [List.map_cons, List.tail_cons, List.map_map, List.map_nil]
  congr 1
  · apply List.map_congr_left
    intro i hi
    rw [List.mem_range] at hi
    have hne : (((obj.front + 1) % obj.size + i) % obj.size) ≠ obj.rear := by
      rw [Nat.mod_add_mod, hrear]
      intro hEq
      have hEq' : (obj.front + (1 + i)) % obj.size = (obj.front + 0) % obj.size := by
        rw [Nat.add_zero, ← hEq]
        congr 1
        omega
      have : 1 + i = 0 := mod_inj_of_lt (by omega) h0 hEq'
      omega
    rw [byteAt_set_ne _ _ _ _ (Ne.symm hne)]
    simp only [Function.comp, Nat.succ_eq_add_one]
    rw [Nat.mod_add_mod]
    have hn : obj.front + 1 + i = obj.front + (i + 1) := by omega
    rw [hn]
  · have hlast : ((obj.front + 1) % obj.size + m) % obj.size = obj.rear := by
      rw [Nat.mod_add_mod, hrear]
      conv_rhs => rw [← Nat.add_mod_right obj.front obj.size]
      congr 1
      omega
    rw [hlast, byteAt_set_self _ _ _ hrlt]

/-! ## The `V1.writeLoop` of `ringbuf_write` (`src/ringbuf.c`) -/

/-- Cursor effect of the `ringbuf_write` loop; `front` is never touched
and `used`/`rear` advance by one per stored byte. -/
theorem writeLoop_cursors (l : List Nat) : ∀ (obj : Ringbuf),
    obj.rear = (obj.front + obj.used) % obj.size →
    (V1.writeLoop obj l).size = obj.size ∧
    (V1.writeLoop obj l).front = obj.front ∧
    (V1.writeLoop obj l).used = obj.used + l.length ∧
    (V1.writeLoop obj l).rear = (obj.front + obj.used + l.length) % obj.size := by
  induction l with
  | nil =>
      intro obj hinv
      exact ⟨rfl, rfl, by simp [V1.writeLoop], by simpa [V1.writeLoop] using hinv⟩
  | cons b rest ih =>
      intro obj hinv
      rw [V1.writeLoop]
      obtain ⟨hs, hf, hu, hr⟩ := ih
        { obj with
          arr := obj.arr.set obj.rear b
          rear := (obj.rear + 1) % obj.size
          used := obj.used + 1 }
        (by
          show (obj.rear + 1) % obj.size = (obj.front + (obj.used + 1)) % obj.size
          rw [hinv, Nat.mod_add_mod]
          congr 1)
      have hs' : (V1.writeLoop _ rest).size = obj.size := hs
      have hf' : (V1.writeLoop _ rest).front = obj.front := hf
      have hu' : (V1.writeLoop _ rest).used = obj.used + 1 + rest.length := hu
      have hr' : (V1.writeLoop _ rest).rear =
          (obj.front + (obj.used + 1) + rest.length) % obj.size := hr
      refine ⟨hs', hf', ?_, ?_⟩
      · rw [hu']
        simp
        omega
      · rw [hr']
        congr 1
        simp
        omega

/-- Storage effect of the `ringbuf_write` loop when the bytes fit in the
free space: the logical contents are extended by the payload. -/
theorem writeLoop_contents (l : List Nat) : ∀ (obj : Ringbuf),
    0 < obj.size → obj.arr.length = obj.size →
    obj.rear = (obj.front + obj.used) % obj.size →
    obj.used + l.length ≤ obj.size →
    contents (V1.writeLoop obj l) = contents obj ++ l ∧
    (V1.writeLoop obj l).arr.length = obj.size := by
  induction l with
  | nil =>
      intro obj _ hlen _ _
      simp [V1.writeLoop, hlen]
  | cons b rest ih =>
      intro obj h0 hlen hinv hfit
      rw [V1.writeLoop]
      have hu : obj.used < obj.size := by simp at hfit; omega
      obtain ⟨hc, hl⟩ := ih
        { obj with
          arr := obj.arr.set obj.rear b
          rear := (obj.rear + 1) % obj.size
          used := obj.used + 1 }
        h0 (by simpa using hlen)
        (by
          show (obj.rear + 1) % obj.size = (obj.front + (obj.used + 1)) % obj.size
          rw [hinv, Nat.mod_add_mod]
          congr 1)
        (by
          show obj.used + 1 + rest.length ≤ obj.size
          simp at hfit
          omega)
      refine ⟨?_, hl⟩
      rw [hc, contents_push obj b h0 hlen hinv hu]
      simp

/-! ## The `ringbuf_writeForce` loop of `src/ringbuf.c` -/

/-- When the incremented `used` does not wrap and does not exceed
`size`, one `writeForce` iteration stores the byte and advances
`rear`/`used`. -/
theorem wfStep_eq_push (obj : Ringbuf) (b : Nat) (hlt : obj.used + 1 < 65536)
    (hcond : ¬ obj.size < obj.used + 1) :
    V1.wfStep obj b =
      { obj with
        arr := obj.arr.set obj.rear b
        rear := (obj.rear + 1) % obj.size
        used := obj.used + 1 } := by
  simp only [V1.wfStep, Nat.mod_eq_of_lt hlt]
  split
  · next h => exact absurd h hcond
  · rfl

/-- When the incremented `used` does not wrap but exceeds `size`, one
`writeForce` iteration also advances `front` and clamps `used`. -/
theorem wfStep_eq_evict (obj : Ringbuf) (b : Nat) (hlt : obj.used + 1 < 65536)
    (hcond : obj.size < obj.used + 1) :
    V1.wfStep obj b =
      { obj with
        arr := obj.arr.set obj.rear b
        rear := (obj.rear + 1) % obj.size
        front := (obj.front + 1) % obj.size
        used := obj.size } := by
  simp only [V1.wfStep, Nat.mod_eq_of_lt hlt]
  split
  · rfl
  · next h => exact absurd hcond h

/-- At `used = 65535` the 16-bit increment wraps to zero, so the
overflow check `used > size` cannot fire and the stored `used` is 0. -/
theorem wfStep_eq_wrap (obj : Ringbuf) (b : Nat) (hused : obj.used = 65535) :
    V1.wfStep obj b =
      { obj with
        arr := obj.arr.set obj.rear b
        rear := (obj.rear + 1) % obj.size
        used := 0 } := by
  have h1 : (65535 + 1) % 65536 = 0 := by norm_num
  simp only [V1.wfStep, hused, h1]
  split
  · next h => exact absurd h (by omega)
  · rfl

/-- One `writeForce` iteration keeps `size` and the storage length, and
leaves `used ≤ size` whenever it held before. -/
theorem wfStep_basic (obj : Ringbuf) (b : Nat) :
    (V1.wfStep obj b).size = obj.size ∧ (V1.wfStep obj b).used ≤ obj.size ∧
    (V1.wfStep obj b).arr.length = obj.arr.length := by
  by_cases h : obj.size < (obj.used + 1) % 65536
  · have heq : V1.wfStep obj b =
        { obj with
          arr := obj.arr.set obj.rear b
          rear := (obj.rear + 1) % obj.size
          front := (obj.front + 1) % obj.size
          used := obj.size } := by
      simp only [V1.wfStep]
      split
      · rfl
      · next h2 => exact absurd h h2
    rw [heq]
    exact ⟨rfl, le_refl _, by simp⟩
  · have heq : V1.wfStep obj b =
        { obj with
          arr := obj.arr.set obj.rear b
          rear := (obj.rear + 1) % obj.size
          used := (obj.used + 1) % 65536 } := by
      simp only [V1.wfStep]
      split
      · next h2 => exact absurd h2 h
      · rfl
    rw [heq]
    refine ⟨rfl, ?_, by simp⟩
    show (obj.used + 1) % 65536 ≤ obj.size
    omega

/-- The whole `writeForce` loop keeps `size`, the storage length, and
`used ≤ size`.  This holds for every capacity, including 65535: the
wrapped `used` is smaller than `size` there as well. -/
theorem wfFold_basic (l : List Nat) : ∀ (obj : Ringbuf), obj.used ≤ obj.size →
    (l.foldl V1.wfStep obj).size = obj.size ∧
    (l.foldl V1.wfStep obj).used ≤ obj.size ∧
    (l.foldl V1.wfStep obj).arr.length = obj.arr.length := by
  induction l with
  | nil => intro obj h; exact ⟨rfl, h, rfl⟩
  | cons b rest ih =>
      intro obj h
      rw [List.foldl_cons]
      obtain ⟨h1, h2, h3⟩ := wfStep_basic obj b
      have hws : (V1.wfStep obj b).used ≤ (V1.wfStep obj b).size := by omega
      obtain ⟨g1, g2, g3⟩ := ih (V1.wfStep obj b) hws
      exact ⟨g1.trans h1, by omega, g3.trans h3⟩

/-- Full characterisation of the `ringbuf_writeForce` loop for
capacities below 65535 (so the 16-bit `used` increment cannot wrap):
`used` saturates at `size`, `front` advances by the overlap
`used + length - size`, and the logical contents are the suffix of the
old contents followed by the payload. -/
theorem wfFold_spec (l : List Nat) : ∀ (obj : Ringbuf),
    0 < obj.size → obj.size ≤ 65534 → obj.arr.length = obj.size →
    obj.front < obj.size → obj.used ≤ obj.size →
    obj.rear = (obj.front + obj.used) % obj.size →
    (l.foldl V1.wfStep obj).size = obj.size ∧
    (l.foldl V1.wfStep obj).arr.length = obj.size ∧
    (l.foldl V1.wfStep obj).used = min (obj.used + l.length) obj.size ∧
    (l.foldl V1.wfStep obj).front =
      (obj.front + (obj.used + l.length - obj.size)) % obj.size ∧
    contents (l.foldl V1.wfStep obj) =
      (contents obj ++ l).drop (obj.used + l.length - obj.size) := by
  induction l with
  | nil =>
      intro obj h0 hsz hlen hf hu hinv
      have hz : obj.used + List.length ([] : List Nat) - obj.size = 0 := by
        simp only [List.length_nil]
        omega
      refine ⟨rfl, hlen, ?_, ?_, ?_⟩
      · simp only [List.foldl_nil, List.length_nil, Nat.add_zero]
        omega
      · simp only [List.foldl_nil, hz, Nat.add_zero]
        exact (Nat.mod_eq_of_lt hf).symm
      · simp only [List.foldl_nil, hz, List.append_nil, List.drop_zero]
  | cons b rest ih =>
      intro obj h0 hsz hlen hf hu hinv
      rw [List.foldl_cons]
      by_cases hfull : obj.used = obj.size
      · have hcond : obj.size < obj.used + 1 := by omega
        rw [wfStep_eq_evict obj b (by omega) hcond]
        have hce := contents_evict obj b h0 hlen hinv hfull
        obtain ⟨g1, g2, g3, g4, g5⟩ := ih
          { obj with
            arr := obj.arr.set obj.rear b
            rear := (obj.rear + 1) % obj.size
            front := (obj.front + 1) % obj.size
            used := obj.size }
          h0 hsz (by simpa using hlen) (Nat.mod_lt _ h0) (le_refl _)
          (by
            show (obj.rear + 1) % obj.size =
              ((obj.front + 1) % obj.size + obj.size) % obj.size
            rw [hinv, Nat.mod_add_mod, Nat.mod_add_mod]
            congr 1
            omega)
        have g3' : (rest.foldl V1.wfStep _).used = min (obj.size + rest.length) obj.size := g3
        have g4' : (rest.foldl V1.wfStep _).front =
            ((obj.front + 1) % obj.size + (obj.size + rest.length - obj.size)) % obj.size := g4
        have g5' : contents (rest.foldl V1.wfStep _) =
            (contents { obj with
                arr := obj.arr.set obj.rear b
                rear := (obj.rear + 1) % obj.size
                front := (obj.front + 1) % obj.size
                used := obj.size } ++ rest).drop (obj.size + rest.length - obj.size) := g5
        rw [hce] at g5'
        refine ⟨g1, g2, ?_, ?_, ?_⟩
        · rw [g3']
          simp only [List.length_cons]
          omega
        · rw [g4', Nat.mod_add_mod]
          congr 1
          simp only [List.length_cons]
          omega
        · rw [g5']
          have hne : contents obj ≠ [] := by
            intro hnil
            have := contents_length obj
            rw [hnil] at this
            simp at this
            omega
          obtain ⟨c, ct, hct⟩ := List.exists_cons_of_ne_nil hne
          rw [hct]
          simp only [List.drop_one, List.tail_cons, List.cons_append, List.drop_succ_cons,
            List.drop_zero]
          have hamt : obj.size + rest.length - obj.size = rest.length := by omega
          have hamt2 : obj.used + (b :: rest).length - obj.size = rest.length + 1 := by
            simp only [List.length_cons]
            omega
          rw [hamt, hamt2, List.drop_succ_cons, List.append_assoc, List.singleton_append]
      · have hcond : ¬ obj.size < obj.used + 1 := by omega
        rw [wfStep_eq_push obj b (by omega) hcond]
        have hcp := contents_push obj b h0 hlen hinv (by omega)
        obtain ⟨g1, g2, g3, g4, g5⟩ := ih
          { obj with
            arr := obj.arr.set obj.rear b
            rear := (obj.rear + 1) % obj.size
            used := obj.used + 1 }
          h0 hsz (by simpa using hlen) hf
          (by show obj.used + 1 ≤ obj.size; omega)
          (by
            show (obj.rear + 1) % obj.size = (obj.front + (obj.used + 1)) % obj.size
            rw [hinv, Nat.mod_add_mod]
            congr 1)
        have g3' : (rest.foldl V1.wfStep _).used = min (obj.used + 1 + rest.length) obj.size := g3
        have g4' : (rest.foldl V1.wfStep _).front =
            (obj.front + (obj.used + 1 + rest.length - obj.size)) % obj.size := g4
        have g5' : contents (rest.foldl V1.wfStep _) =
            (contents { obj with
                arr := obj.arr.set obj.rear b
                rear := (obj.rear + 1) % obj.size
                used := obj.used + 1 } ++ rest).drop (obj.used + 1 + rest.length - obj.size) := g5
        rw [hcp] at g5'
        refine ⟨g1, g2, ?_, ?_, ?_⟩
        · rw [g3']
          simp only [List.length_cons]
          omega
        · rw [g4']
          congr 1
          simp only [List.length_cons]
          omega
        · rw [g5', List.append_assoc, List.singleton_append]
          congr 1
          simp only [List.length_cons]
          omega

/-! ## The shared read loop -/

/-- The read loop only moves `front`; all other fields are untouched. -/
theorem readLoop_state (n : Nat) : ∀ (obj : Ringbuf),
    (readLoop obj n).1.arr = obj.arr ∧ (readLoop obj n).1.size = obj.size ∧
    (readLoop obj n).1.used = obj.used ∧ (readLoop obj n).1.rear = obj.rear ∧
    (obj.front < obj.size → (readLoop obj n).1.front = (obj.front + n) % obj.size) := by
  induction n with
  | zero =>
      intro obj
      exact ⟨rfl, rfl, rfl, rfl, fun hf => (Nat.mod_eq_of_lt hf).symm⟩
  | succ n ih =>
      intro obj
      obtain ⟨a1, a2, a3, a4, a5⟩ := ih { obj with front := (obj.front + 1) % obj.size }
      refine ⟨a1, a2, a3, a4, fun hf => ?_⟩
      have h0 : 0 < obj.size := by omega
      have heq : (readLoop obj (n + 1)).1.front =
          (readLoop { obj with front := (obj.front + 1) % obj.size } n).1.front := rfl
      rw [heq, a5 (Nat.mod_lt _ h0), Nat.mod_add_mod]
      congr 1
      omega

/-- The bytes produced by the read loop are the stored bytes starting at
`front`, wrapping modulo `size`. -/
theorem readLoop_bytes (n : Nat) : ∀ (obj : Ringbuf), obj.front < obj.size →
    (readLoop obj n).2 =
      (List.range n).map (fun i => byteAt obj.arr ((obj.front + i) % obj.size)) := by
  induction n with
  | zero => intro obj _; rfl
  | succ n ih =>
      intro obj hf
      have h0 : 0 < obj.size := by omega
      have heq : (readLoop obj (n + 1)).2 =
          byteAt obj.arr obj.front ::
            (readLoop { obj with front := (obj.front + 1) % obj.size } n).2 := rfl
      rw [heq, ih { obj with front := (obj.front + 1) % obj.size } (Nat.mod_lt _ h0)]
      rw [List.range_succ_eq_map, List.map_cons, List.map_map]
      congr 1
      · show byteAt obj.arr obj.front = byteAt obj.arr ((obj.front + 0) % obj.size)
        rw [Nat.add_zero, Nat.mod_eq_of_lt hf]
      · apply List.map_congr_left
        intro i _
        simp only [Function.comp, Nat.succ_eq_add_one]
        rw [Nat.mod_add_mod]
        have hn : obj.front + 1 + i = obj.front + (i + 1) := by omega
        rw [hn]

/-! ## Agreement of the two write loops -/

/-- The two files' write loops store the same bytes at the same cells
and move `rear` identically; the `part_000` loop leaves `used` alone. -/
theorem loops_agree (l : List Nat) : ∀ (s t : Ringbuf),
    s.arr = t.arr → s.rear = t.rear → s.size = t.size → s.front = t.front →
    (V2.writeLoop s l).arr = (V1.writeLoop t l).arr ∧
    (V2.writeLoop s l).rear = (V1.writeLoop t l).rear ∧
    (V2.writeLoop s l).size = s.size ∧
    (V2.writeLoop s l).front = s.front ∧
    (V2.writeLoop s l).used = s.used := by
  induction l with
  | nil =>
      intro s t h1 h2 _ _
      exact ⟨h1, h2, rfl, rfl, rfl⟩
  | cons b rest ih =>
      intro s t h1 h2 h3 h4
      rw [V2.writeLoop, V1.writeLoop]
      obtain ⟨g1, g2, g3, g4, g5⟩ := ih
        { s with arr := s.arr.set s.rear b, rear := (s.rear + 1) % s.size }
        { t with
          arr := t.arr.set t.rear b
          rear := (t.rear + 1) % t.size
          used := t.used + 1 }
        (by show s.arr.set s.rear b = t.arr.set t.rear b; rw [h1, h2])
        (by show (s.rear + 1) % s.size = (t.rear + 1) % t.size; rw [h2, h3])
        (by show s.size = t.size; exact h3)
        (by show s.front = t.front; exact h4)
      exact ⟨g1, g2, g3, g4, g5⟩

/-! ## Branch equations of the API functions -/

theorem V1.write_eq_guard (obj : Ringbuf) (pdata : List Nat)
    (h : pdata = [] ∨ obj.size = 0) : V1.ringbuf_write obj pdata = (obj, 0) := by
  unfold V1.ringbuf_write
  rw [if_pos h]

theorem V1.write_eq_main (obj : Ringbuf) (pdata : List Nat)
    (h : ¬(pdata = [] ∨ obj.size = 0)) :
    V1.ringbuf_write obj pdata =
      (V1.writeLoop obj (pdata.take (min pdata.length (obj.size - obj.used))),
        min pdata.length (obj.size - obj.used)) := by
  unfold V1.ringbuf_write
  rw [if_neg h]

theorem V1.writeForce_eq_guard (obj : Ringbuf) (pdata : List Nat)
    (h : pdata = [] ∨ obj.size = 0) : V1.ringbuf_writeForce obj pdata = (obj, 0) := by
  unfold V1.ringbuf_writeForce
  rw [if_pos h]

theorem V1.writeForce_eq_main (obj : Ringbuf) (pdata : List Nat)
    (h : ¬(pdata = [] ∨ obj.size = 0)) :
    V1.ringbuf_writeForce obj pdata = (pdata.foldl V1.wfStep obj, pdata.length) := by
  unfold V1.ringbuf_writeForce
  rw [if_neg h]

theorem V1.read_eq_guard (obj : Ringbuf) (length : Nat)
    (h : length = 0 ∨ obj.used = 0) : V1.ringbuf_read obj length = (obj, [], 0) := by
  unfold V1.ringbuf_read
  rw [if_pos h]

theorem V1.read_eq_main (obj : Ringbuf) (length : Nat)
    (h : ¬(length = 0 ∨ obj.used = 0)) :
    V1.ringbuf_read obj length =
      ({ (readLoop obj (if length ≤ obj.used then length else obj.used)).1 with
          used := obj.used - (if length ≤ obj.used then length else obj.used) },
        (readLoop obj (if length ≤ obj.used then length else obj.used)).2,
        if length ≤ obj.used then length else obj.used) := by
  unfold V1.ringbuf_read
  rw [if_neg h]

theorem V2.writeFlag_eq_guard (obj : Ringbuf) (pdata : List Nat) (force : Bool)
    (h : pdata = [] ∨ obj.size = 0) : V2.ringbuf_write obj pdata force = (obj, 0) := by
  unfold V2.ringbuf_write
  rw [if_pos h]

theorem V2.write_eq_reject (obj : Ringbuf) (pdata : List Nat) (force : Bool)
    (h : ¬(pdata = [] ∨ obj.size = 0))
    (h2 : (if force then obj.size else obj.size - obj.used) < pdata.length) :
    V2.ringbuf_write obj pdata force = (obj, 0) := by
  unfold V2.ringbuf_write
  rw [if_neg h]
  simp only
  rw [if_pos h2]

theorem V2.write_eq_cover (obj : Ringbuf) (pdata : List Nat) (force : Bool)
    (h : ¬(pdata = [] ∨ obj.size = 0))
    (h2 : ¬(if force then obj.size else obj.size - obj.used) < pdata.length)
    (h3 : force = true ∧
      obj.size - obj.used <
        min pdata.length (if force then obj.size else obj.size - obj.used)) :
    V2.ringbuf_write obj pdata force =
      ({ V2.writeLoop obj
          (pdata.take (min pdata.length (if force then obj.size else obj.size - obj.used))) with
          front := (obj.front +
            (min pdata.length (if force then obj.size else obj.size - obj.used) -
              (obj.size - obj.used))) % obj.size
          used := obj.size },
        min pdata.length (if force then obj.size else obj.size - obj.used)) := by
  unfold V2.ringbuf_write
  rw [if_neg h]
  simp only
  rw [if_neg h2, if_pos h3]

theorem V2.write_eq_plain (obj : Ringbuf) (pdata : List Nat) (force : Bool)
    (h : ¬(pdata = [] ∨ obj.size = 0))
    (h2 : ¬(if force then obj.size else obj.size - obj.used) < pdata.length)
    (h3 : ¬(force = true ∧
      obj.size - obj.used <
        min pdata.length (if force then obj.size else obj.size - obj.used))) :
    V2.ringbuf_write obj pdata force =
      ({ V2.writeLoop obj
          (pdata.take (min pdata.length (if force then obj.size else obj.size - obj.used))) with
          used := obj.used +
            min pdata.length (if force then obj.size else obj.size - obj.used) },
        min pdata.length (if force then obj.size else obj.size - obj.used)) := by
  unfold V2.ringbuf_write
  rw [if_neg h]
  simp only
  rw [if_neg h2, if_neg h3]

theorem V2.readFlag_eq_guard (obj : Ringbuf) (length : Nat) (strictRead : Bool)
    (h : length = 0 ∨ obj.used = 0) :
    V2.ringbuf_read obj length strictRead = (obj, [], 0) := by
  unfold V2.ringbuf_read
  rw [if_pos h]

theorem V2.read_eq_strict (obj : Ringbuf) (length : Nat) (strictRead : Bool)
    (h : ¬(length = 0 ∨ obj.used = 0)) (h2 : strictRead = true ∧ obj.used < length) :
    V2.ringbuf_read obj length strictRead = (obj, [], 0) := by
  unfold V2.ringbuf_read
  rw [if_neg h, if_pos h2]

theorem V2.readFlag_eq_main (obj : Ringbuf) (length : Nat) (strictRead : Bool)
    (h : ¬(length = 0 ∨ obj.used = 0)) (h2 : ¬(strictRead = true ∧ obj.used < length)) :
    V2.ringbuf_read obj length strictRead =
      ({ (readLoop obj (if obj.used < length then obj.used else length)).1 with
          used := obj.used - (if obj.used < length then obj.used else length) },
        (readLoop obj (if obj.used < length then obj.used else length)).2,
        if obj.used < length then obj.used else length) := by
  unfold V2.ringbuf_read
  rw [if_neg h, if_neg h2]

theorem remove_eq_guard (obj : Ringbuf) (length : Int)
    (h : length = 0 ∨ obj.used = 0) : ringbuf_remove obj length = (obj, 0) := by
  unfold ringbuf_remove
  rw [if_pos h]

theorem remove_eq_all (obj : Ringbuf) (length : Int)
    (h : ¬(length = 0 ∨ obj.used = 0)) (h2 : obj.used ≤ length.natAbs) :
    ringbuf_remove obj length = ({ obj with front := 0, rear := 0, used := 0 }, obj.used) := by
  unfold ringbuf_remove
  rw [if_neg h, if_pos h2]

theorem remove_eq_fifo (obj : Ringbuf) (length : Int)
    (h : ¬(length = 0 ∨ obj.used = 0)) (h2 : ¬obj.used ≤ length.natAbs)
    (h3 : 0 < length) :
    ringbuf_remove obj length =
      ({ obj with
          front := (obj.front + length.toNat) % obj.size
          used := obj.used - length.toNat }, length.toNat) := by
  unfold ringbuf_remove
  rw [if_neg h, if_neg h2, if_pos h3]

theorem remove_eq_lifo (obj : Ringbuf) (length : Int)
    (h : ¬(length = 0 ∨ obj.used = 0)) (h2 : ¬obj.used ≤ length.natAbs)
    (h3 : ¬0 < length) :
    ringbuf_remove obj length =
      ({ obj with
          rear := ((obj.rear : Int) + (obj.size : Int) + length).toNat % obj.size
          used := ((obj.used : Int) + length).toNat }, length.natAbs) := by
  unfold ringbuf_remove
  rw [if_neg h, if_neg h2, if_neg h3]

theorem updatePointer_eq_range (obj : Ringbuf) (front rear used : Nat)
    (h : obj.size < used) : ringbuf_updatePointer obj front rear used = (obj, false) := by
  unfold ringbuf_updatePointer
  rw [if_pos h]

theorem updatePointer_eq_invalid (obj : Ringbuf) (front rear used : Nat)
    (h : ¬obj.size < used)
    (h2 : (if front % obj.size ≤ rear % obj.size then rear % obj.size - front % obj.size
        else obj.size - front % obj.size + rear % obj.size) ≠ used % obj.size ∧
      ¬((if front % obj.size ≤ rear % obj.size then rear % obj.size - front % obj.size
        else obj.size - front % obj.size + rear % obj.size) = 0 ∧
        used % obj.size = obj.size)) :
    ringbuf_updatePointer obj front rear used = (obj, false) := by
  unfold ringbuf_updatePointer
  rw [if_neg h]
  simp only
  rw [if_pos h2]

theorem updatePointer_eq_commit (obj : Ringbuf) (front rear used : Nat)
    (h : ¬obj.size < used)
    (h2 : ¬((if front % obj.size ≤ rear % obj.size then rear % obj.size - front % obj.size
        else obj.size - front % obj.size + rear % obj.size) ≠ used % obj.size ∧
      ¬((if front % obj.size ≤ rear % obj.size then rear % obj.size - front % obj.size
        else obj.size - front % obj.size + rear % obj.size) = 0 ∧
        used % obj.size = obj.size))) :
    ringbuf_updatePointer obj front rear used =
      ({ obj with
          front := front % obj.size
          rear := rear % obj.size
          used := used % obj.size }, true) := by
  unfold ringbuf_updatePointer
  rw [if_neg h]
  simp only
  rw [if_neg h2]

theorem modify_eq_guard (obj : Ringbuf) (index : Nat) (pdata : List Nat)
    (h : obj.used ≤ index ∨ obj.used - index < pdata.length ∨ obj.size = 0) :
    ringbuf_modify obj index pdata = (obj, false) := by
  unfold ringbuf_modify
  rw [if_pos h]

theorem modify_eq_main (obj : Ringbuf) (index : Nat) (pdata : List Nat)
    (h : ¬(obj.used ≤ index ∨ obj.used - index < pdata.length ∨ obj.size = 0)) :
    ringbuf_modify obj index pdata =
      ({ obj with
          arr := modifyLoop obj.size ((obj.front + index) % obj.size) obj.arr pdata 0 },
        true) := by
  unfold ringbuf_modify
  rw [if_neg h]

theorem memset_eq_guard (obj : Ringbuf) (index value length : Nat)
    (h : length = 0 ∨ obj.size ≤ index) :
    ringbuf_memset obj index value length = (obj, 0) := by
  unfold ringbuf_memset
  rw [if_pos h]

theorem memset_eq_main (obj : Ringbuf) (index value length : Nat)
    (h : ¬(length = 0 ∨ obj.size ≤ index)) :
    ringbuf_memset obj index value length =
      ({ obj with
          arr := memsetLoop obj.size value obj.arr ((obj.front + index) % obj.size)
            (if length ≤ obj.size then length else obj.size) },
        if length ≤ obj.size then length else obj.size) := by
  unfold ringbuf_memset
  rw [if_neg h]

/-! ## Invariant preservation -/

/-- One `writeForce` iteration preserves the ring invariant as long as
the capacity stays below 65535 (so the 16-bit increment cannot wrap). -/
theorem wfStep_inv (obj : Ringbuf) (b : Nat) (h0 : 0 < obj.size) (hsz : obj.size ≤ 65534)
    (hinv : CursorInv obj) : CursorInv (V1.wfStep obj b) ∧ (V1.wfStep obj b).size = obj.size := by
  obtain ⟨hr, hu⟩ := hinv
  by_cases hfull : obj.used = obj.size
  · rw [wfStep_eq_evict obj b (by omega) (by omega)]
    refine ⟨⟨?_, le_refl _⟩, rfl⟩
    show (obj.rear + 1) % obj.size = ((obj.front + 1) % obj.size + obj.size) % obj.size
    rw [hr, Nat.mod_add_mod, Nat.mod_add_mod]
    congr 1
    omega
  · rw [wfStep_eq_push obj b (by omega) (by omega)]
    refine ⟨⟨?_, ?_⟩, rfl⟩
    · show (obj.rear + 1) % obj.size = (obj.front + (obj.used + 1)) % obj.size
      rw [hr, Nat.mod_add_mod]
      congr 1
    · show obj.used + 1 ≤ obj.size
      omega

/-- The whole `writeForce` loop preserves the ring invariant for
capacities up to 65534. -/
theorem wfFold_inv (l : List Nat) : ∀ (obj : Ringbuf), 0 < obj.size → obj.size ≤ 65534 →
    CursorInv obj →
    CursorInv (l.foldl V1.wfStep obj) ∧ (l.foldl V1.wfStep obj).size = obj.size := by
  induction l with
  | nil =>
      intro obj _ _ hinv
      exact ⟨hinv, rfl⟩
  | cons b rest ih =>
      intro obj h0 hsz hinv
      rw [List.foldl_cons]
      obtain ⟨s1, s2⟩ := wfStep_inv obj b h0 hsz hinv
      obtain ⟨f1, f2⟩ := ih (V1.wfStep obj b) (by omega) (by omega) s1
      exact ⟨f1, f2.trans s2⟩

/-- After at least one read-loop iteration the new `front` is
`(front + n) % size`, with no assumption on the old `front`. -/
theorem readLoop_front_pos : ∀ (n : Nat) (obj : Ringbuf), 1 ≤ n →
    (readLoop obj n).1.front = (obj.front + n) % obj.size
  | 0, _, h => absurd h (by omega)
  | 1, obj, _ => rfl
  | n + 2, obj, _ => by
      have heq : (readLoop obj (n + 2)).1.front =
          (readLoop { obj with front := (obj.front + 1) % obj.size } (n + 1)).1.front := rfl
      rw [heq, readLoop_front_pos (n + 1) _ (by omega)]
      show ((obj.front + 1) % obj.size + (n + 1)) % obj.size = (obj.front + (n + 2)) % obj.size
      rw [Nat.mod_add_mod]
      congr 1
      omega

/-- Every engine operation (for a capacity of at most 65534) maps a
state satisfying the ring invariant to another such state, and never
changes the capacity. -/
theorem applyOp_inv (op : Op) (obj : Ringbuf) (h0 : 0 < obj.size)
    (hsz : obj.size ≤ 65534) (hinv : CursorInv obj) :
    CursorInv (applyOp obj op) ∧ (applyOp obj op).size = obj.size := by
  obtain ⟨hr, hu⟩ := hinv
  cases op with
  | writeV1 pdata =>
      show CursorInv (V1.ringbuf_write obj pdata).1 ∧
        (V1.ringbuf_write obj pdata).1.size = obj.size
      by_cases hg : pdata = [] ∨ obj.size = 0
      · rw [V1.write_eq_guard obj pdata hg]
        exact ⟨⟨hr, hu⟩, rfl⟩
      · rw [V1.write_eq_main obj pdata hg]
        obtain ⟨ws, wf, wu, wr⟩ :=
          writeLoop_cursors (pdata.take (min pdata.length (obj.size - obj.used))) obj hr
        have hk : (pdata.take (min pdata.length (obj.size - obj.used))).length =
            min pdata.length (obj.size - obj.used) := by
          rw [List.length_take]
          omega
        refine ⟨⟨?_, ?_⟩, ws⟩
        · rw [wr, wf, wu, ws]
          congr 1
          omega
        · rw [wu, ws, hk]
          omega
  | writeForceV1 pdata =>
      show CursorInv (V1.ringbuf_writeForce obj pdata).1 ∧
        (V1.ringbuf_writeForce obj pdata).1.size = obj.size
      by_cases hg : pdata = [] ∨ obj.size = 0
      · rw [V1.writeForce_eq_guard obj pdata hg]
        exact ⟨⟨hr, hu⟩, rfl⟩
      · rw [V1.writeForce_eq_main obj pdata hg]
        exact wfFold_inv pdata obj h0 hsz ⟨hr, hu⟩
  | writeV2 pdata force =>
      show CursorInv (V2.ringbuf_write obj pdata force).1 ∧
        (V2.ringbuf_write obj pdata force).1.size = obj.size
      by_cases hg : pdata = [] ∨ obj.size = 0
      · rw [V2.writeFlag_eq_guard _ _ _ hg]
        exact ⟨⟨hr, hu⟩, rfl⟩
      · by_cases h2 : (if force then obj.size else obj.size - obj.used) < pdata.length
        · rw [V2.write_eq_reject _ _ _ hg h2]
          exact ⟨⟨hr, hu⟩, rfl⟩
        · obtain ⟨a1, a2, a3, a4, a5⟩ :=
            loops_agree (pdata.take
              (min pdata.length (if force then obj.size else obj.size - obj.used)))
              obj obj rfl rfl rfl rfl
          obtain ⟨ws, wf, wu, wr⟩ :=
            writeLoop_cursors (pdata.take
              (min pdata.length (if force then obj.size else obj.size - obj.used))) obj hr
          have hk : (pdata.take
              (min pdata.length (if force then obj.size else obj.size - obj.used))).length =
              min pdata.length (if force then obj.size else obj.size - obj.used) := by
            rw [List.length_take]
            omega
          by_cases h3 : force = true ∧ obj.size - obj.used <
              min pdata.length (if force then obj.size else obj.size - obj.used)
          · rw [V2.write_eq_cover _ _ _ hg h2 h3]
            refine ⟨⟨?_, ?_⟩, a3⟩
            · show (V2.writeLoop obj _).rear =
                ((obj.front + (min pdata.length
                    (if force then obj.size else obj.size - obj.used) -
                  (obj.size - obj.used))) % obj.size + obj.size) %
                  (V2.writeLoop obj _).size
              rw [a3, a2, wr, Nat.mod_add_mod]
              congr 1
              rw [hk] at wu
              omega
            · show obj.size ≤ (V2.writeLoop obj _).size
              rw [a3]
          · rw [V2.write_eq_plain _ _ _ hg h2 h3]
            have hub : obj.used +
                min pdata.length (if force then obj.size else obj.size - obj.used) ≤
                obj.size := by
              cases force with
              | false =>
                  have : min pdata.length (obj.size - obj.used) ≤ obj.size - obj.used :=
                    Nat.min_le_right _ _
                  simp only [Bool.false_eq_true, if_false] at this ⊢
                  omega
              | true =>
                  have h3' : ¬ obj.size - obj.used <
                      min pdata.length (if true then obj.size else obj.size - obj.used) :=
                    fun hx => h3 ⟨rfl, hx⟩
                  simp only [if_true] at h3' ⊢
                  omega
            refine ⟨⟨?_, ?_⟩, a3⟩
            · show (V2.writeLoop obj _).rear =
                ((V2.writeLoop obj _).front + (obj.used + min pdata.length
                  (if force then obj.size else obj.size - obj.used))) %
                (V2.writeLoop obj _).size
              rw [a2, a3, a4, wr]
              congr 1
              rw [hk] at wu
              omega
            · show obj.used + min pdata.length
                  (if force then obj.size else obj.size - obj.used) ≤
                (V2.writeLoop obj _).size
              rw [a3]
              exact hub
  | readV1 length =>
      show CursorInv (V1.ringbuf_read obj length).1 ∧
        (V1.ringbuf_read obj length).1.size = obj.size
      by_cases hg : length = 0 ∨ obj.used = 0
      · rw [V1.read_eq_guard _ _ hg]
        exact ⟨⟨hr, hu⟩, rfl⟩
      · rw [V1.read_eq_main _ _ hg]
        push_neg at hg
        obtain ⟨a1, a2, a3, a4, _⟩ :=
          readLoop_state (if length ≤ obj.used then length else obj.used) obj
        have hrl1 : 1 ≤ (if length ≤ obj.used then length else obj.used) := by
          split <;> omega
        have hrle : (if length ≤ obj.used then length else obj.used) ≤ obj.used := by
          split <;> omega
        have hfr := readLoop_front_pos (if length ≤ obj.used then length else obj.used) obj hrl1
        refine ⟨⟨?_, ?_⟩, a2⟩
        · show (readLoop obj _).1.rear = ((readLoop obj _).1.front +
            (obj.used - (if length ≤ obj.used then length else obj.used))) %
            (readLoop obj _).1.size
          rw [a4, a2, hfr, hr, Nat.mod_add_mod]
          congr 1
          omega
        · show obj.used - (if length ≤ obj.used then length else obj.used) ≤
            (readLoop obj _).1.size
          rw [a2]
          omega
  | readV2 length strict =>
      show CursorInv (V2.ringbuf_read obj length strict).1 ∧
        (V2.ringbuf_read obj length strict).1.size = obj.size
      by_cases hg : length = 0 ∨ obj.used = 0
      · rw [V2.readFlag_eq_guard _ _ _ hg]
        exact ⟨⟨hr, hu⟩, rfl⟩
      · by_cases h2 : strict = true ∧ obj.used < length
        · rw [V2.read_eq_strict _ _ _ hg h2]
          exact ⟨⟨hr, hu⟩, rfl⟩
        · rw [V2.readFlag_eq_main _ _ _ hg h2]
          push_neg at hg
          obtain ⟨a1, a2, a3, a4, _⟩ :=
            readLoop_state (if obj.used < length then obj.used else length) obj
          have hrl1 : 1 ≤ (if obj.used < length then obj.used else length) := by
            split <;> omega
          have hrle : (if obj.used < length then obj.used else length) ≤ obj.used := by
            split <;> omega
          have hfr := readLoop_front_pos (if obj.used < length then obj.used else length) obj hrl1
          refine ⟨⟨?_, ?_⟩, a2⟩
          · show (readLoop obj _).1.rear = ((readLoop obj _).1.front +
              (obj.used - (if obj.used < length then obj.used else length))) %
              (readLoop obj _).1.size
            rw [a4, a2, hfr, hr, Nat.mod_add_mod]
            congr 1
            omega
          · show obj.used - (if obj.used < length then obj.used else length) ≤
              (readLoop obj _).1.size
            rw [a2]
            omega
  | removeOp length =>
      show CursorInv (ringbuf_remove obj length).1 ∧
        (ringbuf_remove obj length).1.size = obj.size
      by_cases hg : length = 0 ∨ obj.used = 0
      · rw [remove_eq_guard _ _ hg]
        exact ⟨⟨hr, hu⟩, rfl⟩
      · by_cases h2 : obj.used ≤ length.natAbs
        · rw [remove_eq_all _ _ hg h2]
          refine ⟨⟨?_, ?_⟩, rfl⟩
          · show (0 : Nat) = (0 + 0) % obj.size
            simp
          · show (0 : Nat) ≤ obj.size
            omega
        · by_cases h3 : 0 < length
          · rw [remove_eq_fifo _ _ hg h2 h3]
            have htle : length.toNat ≤ obj.used := by omega
            refine ⟨⟨?_, ?_⟩, rfl⟩
            · show obj.rear = ((obj.front + length.toNat) % obj.size +
                (obj.used - length.toNat)) % obj.size
              rw [hr, Nat.mod_add_mod]
              congr 1
              omega
            · show obj.used - length.toNat ≤ obj.size
              omega
          · rw [remove_eq_lifo _ _ hg h2 h3]
            push_neg at hg
            have hneg : length < 0 := by omega
            have hklt : length.natAbs < obj.used := by omega
            have hrn : ((obj.rear : Int) + obj.size + length).toNat =
                obj.rear + obj.size - length.natAbs := by omega
            have hun : ((obj.used : Int) + length).toNat =
                obj.used - length.natAbs := by omega
            refine ⟨⟨?_, ?_⟩, rfl⟩
            · show ((obj.rear : Int) + obj.size + length).toNat % obj.size =
                (obj.front + ((obj.used : Int) + length).toNat) % obj.size
              rw [hrn, hun, hr]
              have e1 : (obj.front + obj.used) % obj.size + obj.size - length.natAbs =
                  (obj.front + obj.used) % obj.size + (obj.size - length.natAbs) := by
                omega
              rw [e1, Nat.mod_add_mod]
              have e2 : obj.front + obj.used + (obj.size - length.natAbs) =
                  obj.front + (obj.used - length.natAbs) + obj.size := by
                omega
              rw [e2, Nat.add_mod_right]
            · show ((obj.used : Int) + length).toNat ≤ obj.size
              omega
  | modifyOp index pdata =>
      show CursorInv (ringbuf_modify obj index pdata).1 ∧
        (ringbuf_modify obj index pdata).1.size = obj.size
      by_cases hg : obj.used ≤ index ∨ obj.used - index < pdata.length ∨ obj.size = 0
      · rw [modify_eq_guard _ _ _ hg]
        exact ⟨⟨hr, hu⟩, rfl⟩
      · rw [modify_eq_main _ _ _ hg]
        exact ⟨⟨hr, hu⟩, rfl⟩
  | memsetOp index value length =>
      show CursorInv (ringbuf_memset obj index value length).1 ∧
        (ringbuf_memset obj index value length).1.size = obj.size
      by_cases hg : length = 0 ∨ obj.size ≤ index
      · rw [memset_eq_guard _ _ _ _ hg]
        exact ⟨⟨hr, hu⟩, rfl⟩
      · rw [memset_eq_main _ _ _ _ hg]
        exact ⟨⟨hr, hu⟩, rfl⟩
  | updateOp front rear used =>
      show CursorInv (ringbuf_updatePointer obj front rear used).1 ∧
        (ringbuf_updatePointer obj front rear used).1.size = obj.size
      by_cases h : obj.size < used
      · rw [updatePointer_eq_range _ _ _ _ h]
        exact ⟨⟨hr, hu⟩, rfl⟩
      · by_cases h2 : (if front % obj.size ≤ rear % obj.size then
            rear % obj.size - front % obj.size
          else obj.size - front % obj.size + rear % obj.size) ≠ used % obj.size ∧
          ¬((if front % obj.size ≤ rear % obj.size then
            rear % obj.size - front % obj.size
          else obj.size - front % obj.size + rear % obj.size) = 0 ∧
            used % obj.size = obj.size)
        · rw [updatePointer_eq_invalid _ _ _ _ h h2]
          exact ⟨⟨hr, hu⟩, rfl⟩
        · rw [updatePointer_eq_commit _ _ _ _ h h2]
          have hult : used % obj.size < obj.size := Nat.mod_lt _ h0
          have hrlt : rear % obj.size < obj.size := Nat.mod_lt _ h0
          have hflt : front % obj.size < obj.size := Nat.mod_lt _ h0
          have hcase : (if front % obj.size ≤ rear % obj.size then
              rear % obj.size - front % obj.size
            else obj.size - front % obj.size + rear % obj.size) = used % obj.size := by
            by_contra hne
            exact h2 ⟨hne, fun hx => by omega⟩
          refine ⟨⟨?_, ?_⟩, rfl⟩
          · show rear % obj.size = (front % obj.size + used % obj.size) % obj.size
            rw [← hcase]
            by_cases hfr : front % obj.size ≤ rear % obj.size
            · rw [if_pos hfr]
              have e1 : front % obj.size + (rear % obj.size - front % obj.size) =
                  rear % obj.size := by omega
              rw [e1, Nat.mod_eq_of_lt hrlt]
            · rw [if_neg hfr]
              have e1 : front % obj.size +
                  (obj.size - front % obj.size + rear % obj.size) =
                  obj.size + rear % obj.size := by omega
              rw [e1, Nat.add_mod_left, Nat.mod_eq_of_lt hrlt]
          · show used % obj.size ≤ obj.size
            omega
  | peekOp index length =>
      exact ⟨⟨hr, hu⟩, rfl⟩
  | strlenOp index =>
      exact ⟨⟨hr, hu⟩, rfl⟩
  | strchrOp index ch =>
      exact ⟨⟨hr, hu⟩, rfl⟩
  | strstrOp index sub =>
      exact ⟨⟨hr, hu⟩, rfl⟩

/-- Invariant preservation over a whole operation sequence. -/
theorem applyOps_inv (ops : List Op) : ∀ (obj : Ringbuf), 0 < obj.size →
    obj.size ≤ 65534 → CursorInv obj →
    CursorInv (applyOps obj ops) ∧ (applyOps obj ops).size = obj.size := by
  induction ops with
  | nil =>
      intro obj _ _ hinv
      exact ⟨hinv, rfl⟩
  | cons op rest ih =>
      intro obj h0 hsz hinv
      show CursorInv (applyOps (applyOp obj op) rest) ∧
        (applyOps (applyOp obj op) rest).size = obj.size
      obtain ⟨s1, s2⟩ := applyOp_inv op obj h0 hsz hinv
      obtain ⟨f1, f2⟩ := ih (applyOp obj op) (by omega) (by omega) s1
      exact ⟨f1, f2.trans s2⟩

/-! ## The character search -/

/-- `firstIdx` returns `-1` or a value that is at least 0. -/
theorem firstIdx_lower (l : List Nat) (ch : Nat) : -1 ≤ firstIdx l ch := by
  induction l with
  | nil => simp [firstIdx]
  | cons b rest ih =>
      rw [firstIdx]
      split
      · omega
      · split <;> omega

/-- The `strchr` loop started at relative position `count` computes the
first hit in the remaining bytes, shifted by `count` (for the call with
`index = 0`). -/
theorem strchrGo_spec (obj : Ringbuf) (ch : Nat) :
    ∀ (fuel count : Nat), count + fuel ≤ obj.used →
    strchrGo obj 0 ch ((obj.front + count) % obj.size) count fuel =
      (if firstIdx (tailBytes obj count fuel) ch < 0 then -1
        else firstIdx (tailBytes obj count fuel) ch + count) := by
  intro fuel
  induction fuel with
  | zero =>
      intro count _
      simp [strchrGo, tailBytes, firstIdx]
  | succ n ih =>
      intro count hcnt
      rw [strchrGo, tailBytes_succ]
      by_cases hhit : byteAt obj.arr ((obj.front + count) % obj.size) = ch
      · rw [if_pos hhit, firstIdx]
        rw [if_pos hhit]
        have hc : (0 + count) % obj.used = count := by
          rw [Nat.zero_add, Nat.mod_eq_of_lt (by omega)]
        rw [hc]
        norm_num
      · rw [if_neg hhit, firstIdx]
        rw [if_neg hhit]
        have hstep : ((obj.front + count) % obj.size + 1) % obj.size =
            (obj.front + (count + 1)) % obj.size := by
          rw [Nat.mod_add_mod]
          congr 1
        rw [hstep, ih (count + 1) (by omega)]
        have hlow := firstIdx_lower (tailBytes obj (count + 1) n) ch
        by_cases hneg : firstIdx (tailBytes obj (count + 1) n) ch < 0
        · simp only [if_pos hneg]
          norm_num
        · simp only [if_neg hneg]
          have h2 : ¬ firstIdx (tailBytes obj (count + 1) n) ch + 1 < 0 := by omega
          simp only [if_neg h2]
          omega

/-- Two buffer states with equal fields are equal. -/
theorem Ringbuf.ext_fields {x y : Ringbuf} (h1 : x.arr = y.arr) (h2 : x.size = y.size)
    (h3 : x.used = y.used) (h4 : x.front = y.front) (h5 : x.rear = y.rear) : x = y := by
  cases x
  cases y
  simp_all

/-- `used`, `front` and `size` effects of the `V1` write loop, with no
side conditions. -/
theorem writeLoop_used_front (l : List Nat) : ∀ (obj : Ringbuf),
    (V1.writeLoop obj l).used = obj.used + l.length ∧
    (V1.writeLoop obj l).front = obj.front ∧
    (V1.writeLoop obj l).size = obj.size := by
  induction l with
  | nil =>
      intro obj
      exact ⟨by simp [V1.writeLoop], rfl, rfl⟩
  | cons b rest ih =>
      intro obj
      rw [V1.writeLoop]
      obtain ⟨a1, a2, a3⟩ := ih
        { obj with
          arr := obj.arr.set obj.rear b
          rear := (obj.rear + 1) % obj.size
          used := obj.used + 1 }
      have a1' : (V1.writeLoop _ rest).used = obj.used + 1 + rest.length := a1
      exact ⟨by rw [a1']; simp; omega, a2, a3⟩

/-- An empty buffer has empty logical contents. -/
theorem contents_nil (obj : Ringbuf) (h : obj.used = 0) : contents obj = [] := by
  unfold contents
  rw [h]
  rfl

/-- The wraparound-search example of the spec: capacity 8, `front = 6`,
`used = 5`, logical contents `"cdXab"` (`X` a zero byte). -/
def wrapSearchBuf : Ringbuf :=
  { arr := [0, 97, 98, 5, 5, 5, 99, 100], size := 8, used := 5, front := 6, rear := 3 }

/-- C4 (amended): with `index = 0`, `ringbuf_strchr` scans exactly the
valid region and returns the relative index of the first occurrence of
the target byte, or -1; in particular the spec's capacity-8 wraparound
example with contents `"cdXab"` finds `'b'` at relative index 4. -/
theorem C4_strchr_first_occurrence :
    (∀ (obj : Ringbuf) (ch : Nat),
      ringbuf_strchr obj 0 ch = firstIdx (contents obj) ch) ∧
    contents wrapSearchBuf = [99, 100, 0, 97, 98] ∧
    ringbuf_strchr wrapSearchBuf 0 98 = 4 := by
  refine ⟨?_, by decide, by decide⟩
  intro obj ch
  unfold ringbuf_strchr
  by_cases hz : obj.used ≤ 0
  · rw [if_pos hz]
    rw [contents_nil obj (by omega), firstIdx]
  · rw [if_neg hz]
    rw [strchrGo_spec obj ch obj.used 0 (by omega), tailBytes_zero]
    have hlow := firstIdx_lower (contents obj) ch
    by_cases hneg : firstIdx (contents obj) ch < 0
    · rw [if_pos hneg]
      omega
    · rw [if_neg hneg]
      omega

/-- C4 counterexample state: capacity 4, `front = 0`, `used = 2`; the
byte 3 sits in the free region (absolute cell 2), outside the valid
bytes. -/
def strchrCex : Ringbuf := { arr := [1, 2, 3, 4], size := 4, used := 2, front := 0, rear := 2 }

/-- C4 counterexample: from relative index 1 the valid region is just
`[2]`, which does not contain 3, so the claim requires -1; the code
scans past the valid region, hits the stale 3, and returns
`(1 + 1) % used = 0`. -/
theorem C4_counterexample :
    WF strchrCex ∧ CursorInv strchrCex ∧
    (contents strchrCex).drop 1 = [2] ∧
    ringbuf_strchr strchrCex 1 3 = 0 := by decide

/-- The C2 failing input: capacity 4, resynchronising to the
fully-wrapped full buffer `front = rear = 1`, `used = 4`. -/
def resyncFullBuf : Ringbuf :=
  { arr := [10, 11, 12, 13], size := 4, used := 4, front := 1, rear := 1 }

/-- C2: `updatePointer(front=1, rear=1, used=4)` on a capacity-4 buffer
reports success, but because `used` was reduced modulo the capacity
before validation it stores `used = 0`: the buffer is recorded as empty,
not full.  (The claim says the buffer is left with `used == capacity`.) -/
theorem C2_resync_full_buffer_eval :
    (ringbuf_updatePointer resyncFullBuf 1 1 4).2 = true ∧
    (ringbuf_updatePointer resyncFullBuf 1 1 4).1.used = 0 := by decide

/-- C10: a successful `updatePointer` always records `used < capacity`;
a request with `used = capacity` (and `front = rear`) succeeds but
records `used = 0`. -/
theorem C10_resync_never_full (obj : Ringbuf) (f r u : Nat) (h0 : 0 < obj.size) :
    ((ringbuf_updatePointer obj f r u).2 = true →
      (ringbuf_updatePointer obj f r u).1.used < obj.size) ∧
    ((ringbuf_updatePointer obj f f obj.size).2 = true ∧
      (ringbuf_updatePointer obj f f obj.size).1.used = 0) := by
  constructor
  · intro hs
    by_cases h : obj.size < u
    · rw [updatePointer_eq_range _ _ _ _ h] at hs
      exact absurd hs (by simp)
    · by_cases h2 : (if f % obj.size ≤ r % obj.size then r % obj.size - f % obj.size
          else obj.size - f % obj.size + r % obj.size) ≠ u % obj.size ∧
          ¬((if f % obj.size ≤ r % obj.size then r % obj.size - f % obj.size
          else obj.size - f % obj.size + r % obj.size) = 0 ∧ u % obj.size = obj.size)
      · rw [updatePointer_eq_invalid _ _ _ _ h h2] at hs
        exact absurd hs (by simp)
      · rw [updatePointer_eq_commit _ _ _ _ h h2]
        show u % obj.size < obj.size
        exact Nat.mod_lt _ h0
  · have hl0 : (if f % obj.size ≤ f % obj.size then f % obj.size - f % obj.size
        else obj.size - f % obj.size + f % obj.size) = 0 := by
      rw [if_pos (le_refl _)]
      omega
    have hu0 : obj.size % obj.size = 0 := Nat.mod_self _
    have h2 : ¬((if f % obj.size ≤ f % obj.size then f % obj.size - f % obj.size
        else obj.size - f % obj.size + f % obj.size) ≠ obj.size % obj.size ∧
        ¬((if f % obj.size ≤ f % obj.size then f % obj.size - f % obj.size
        else obj.size - f % obj.size + f % obj.size) = 0 ∧
          obj.size % obj.size = obj.size)) := by
      intro hx
      exact hx.1 (by rw [hl0, hu0])
    rw [updatePointer_eq_commit _ _ _ _ (by omega) h2]
    refine ⟨rfl, ?_⟩
    show obj.size % obj.size = 0
    exact hu0

/-- A well-formed partially filled buffer used to instantiate the
resynchronisation theorem. -/
def resyncWitBuf : Ringbuf := { arr := [5, 6, 7, 8], size := 4, used := 2, front := 1, rear := 3 }

/-- Witness for C10 at a concrete buffer and concrete cursors. -/
theorem C10_resync_never_full_witness :
    ((ringbuf_updatePointer resyncWitBuf 1 3 2).2 = true →
      (ringbuf_updatePointer resyncWitBuf 1 3 2).1.used < resyncWitBuf.size) ∧
    ((ringbuf_updatePointer resyncWitBuf 1 1 resyncWitBuf.size).2 = true ∧
      (ringbuf_updatePointer resyncWitBuf 1 1 resyncWitBuf.size).1.used = 0) :=
  C10_resync_never_full resyncWitBuf 1 3 2 (by decide)

/-- C1 (amended): for every buffer constructed with a capacity of at
most 65534, every state reachable by any sequence of engine operations
satisfies `rear == (front + used) mod capacity` and
`0 <= used <= capacity`.  (At capacity 65535 the invariant can break;
see the counterexample.) -/
theorem C1_invariant_reachable (arr0 : List Nat) (size : Nat) (b0 : Ringbuf)
    (ops : List Op) (hinit : ringbuf_init arr0 size = some b0)
    (hsz : size ≤ 65534) : CursorInv (applyOps b0 ops) := by
  unfold ringbuf_init at hinit
  split at hinit
  · exact absurd hinit (by simp)
  · next hsz0 =>
      have hb0 : ({ arr := arr0, size := size, used := 0, front := 0, rear := 0 } : Ringbuf) = b0 :=
        Option.some_inj.mp hinit
      subst hb0
      have h0 : 0 < size := by omega
      refine (applyOps_inv ops _ ?_ ?_ ?_).1
      · exact h0
      · exact hsz
      · refine ⟨?_, ?_⟩
        · show (0 : Nat) = (0 + 0) % size
          simp
        · show (0 : Nat) ≤ size
          omega

/-- Witness for C1: a capacity-3 buffer taken through a write, a read, a
forced write and a remove. -/
theorem C1_invariant_reachable_witness :
    CursorInv (applyOps { arr := [0, 0, 0], size := 3, used := 0, front := 0, rear := 0 }
      [Op.writeV1 [5, 6], Op.readV1 1, Op.writeForceV1 [7, 8, 9], Op.removeOp (-1)]) :=
  C1_invariant_reachable [0, 0, 0] 3 _
    [Op.writeV1 [5, 6], Op.readV1 1, Op.writeForceV1 [7, 8, 9], Op.removeOp (-1)]
    (by decide) (by decide)

/-- The fresh buffer of the maximal capacity 65535. -/
def freshMaxBuf : Ringbuf :=
  { arr := List.replicate 65535 0, size := 65535, used := 0, front := 0, rear := 0 }

/-- C1 counterexample: at capacity 65535 (a legal `uint16_t` capacity),
filling the buffer with a plain write and then forcing one more byte
leaves `rear = 1` but `front = used = 0`: the 16-bit `used++` inside
`ringbuf_writeForce` wraps to 0 before the overflow check, so the
invariant `rear == (front + used) mod capacity` is violated in a state
reachable from construction. -/
theorem C1_counterexample :
    ringbuf_init (List.replicate 65535 0) 65535 = some freshMaxBuf ∧
    ¬ CursorInv (applyOps freshMaxBuf
      [Op.writeV1 (List.replicate 65535 1), Op.writeForceV1 [7]]) := by
  have key : ∀ l1 : List Nat, l1.length = 65535 →
      ¬ CursorInv (applyOps freshMaxBuf [Op.writeV1 l1, Op.writeForceV1 [7]]) := by
    intro l1 hl1 hinv
    have hr0 : freshMaxBuf.rear = (freshMaxBuf.front + freshMaxBuf.used) % freshMaxBuf.size := by
      show (0 : Nat) = (0 + 0) % 65535
      simp
    have hg1 : ¬(l1 = [] ∨ freshMaxBuf.size = 0) := by
      push_neg
      constructor
      · intro he
        rw [he] at hl1
        simp at hl1
      · show (65535 : Nat) ≠ 0
        omega
    have hmin : min l1.length (freshMaxBuf.size - freshMaxBuf.used) = l1.length := by
      rw [hl1]
      show min 65535 (65535 - 0) = 65535
      omega
    have htake : l1.take (min l1.length (freshMaxBuf.size - freshMaxBuf.used)) = l1 := by
      rw [hmin]
      exact List.take_length _
    have h2 : (V1.ringbuf_write freshMaxBuf l1).1 = V1.writeLoop freshMaxBuf l1 := by
      rw [V1.write_eq_main _ _ hg1, htake]
    obtain ⟨ws, wf, wu, wr⟩ := writeLoop_cursors l1 freshMaxBuf hr0
    have hused1 : (V1.writeLoop freshMaxBuf l1).used = 65535 := by
      rw [wu, hl1]
      show 0 + 65535 = 65535
      omega
    have hsz1 : (V1.writeLoop freshMaxBuf l1).size = 65535 := ws
    have hfr1 : (V1.writeLoop freshMaxBuf l1).front = 0 := wf
    have hre1 : (V1.writeLoop freshMaxBuf l1).rear = 0 := by
      rw [wr, hl1]
      show (0 + 0 + 65535) % 65535 = 0
      omega
    have hg2 : ¬(([7] : List Nat) = [] ∨ (V1.writeLoop freshMaxBuf l1).size = 0) := by
      push_neg
      exact ⟨by simp, by omega⟩
    have h3 : applyOps freshMaxBuf [Op.writeV1 l1, Op.writeForceV1 [7]] =
        V1.wfStep (V1.writeLoop freshMaxBuf l1) 7 := by
      show (V1.ringbuf_writeForce (V1.ringbuf_write freshMaxBuf l1).1 [7]).1 = _
      rw [h2, V1.writeForce_eq_main _ _ hg2]
      rfl
    rw [h3, wfStep_eq_wrap _ 7 hused1] at hinv
    obtain ⟨hx, -⟩ := hinv
    have hx2 : ((V1.writeLoop freshMaxBuf l1).rear + 1) % (V1.writeLoop freshMaxBuf l1).size =
        ((V1.writeLoop freshMaxBuf l1).front + 0) % (V1.writeLoop freshMaxBuf l1).size := hx
    rw [hre1, hsz1, hfr1] at hx2
    omega
  constructor
  · rfl
  · exact key (List.replicate 65535 1) (by rw [List.length_replicate])

/-- C3 (amended): `part_000`'s force write never reports more than the
capacity — a request longer than the capacity is rejected outright
(returns 0, stores nothing).  `ringbuf.c`'s `ringbuf_writeForce` instead
returns the full requested length even when it exceeds the capacity; its
loop performs every store (later bytes overwrite earlier cells, so the
storage never grows beyond `size` cells) and `used` stays at most
`size`. -/
theorem C3_force_write_bounds (obj : Ringbuf) (pdata : List Nat) (hwf : WF obj) :
    ((V2.ringbuf_write obj pdata true).2 ≤ obj.size ∧
      (obj.size < pdata.length → V2.ringbuf_write obj pdata true = (obj, 0))) ∧
    ((V1.ringbuf_writeForce obj pdata).2 = pdata.length ∧
      (V1.ringbuf_writeForce obj pdata).1.used ≤ obj.size ∧
      (V1.ringbuf_writeForce obj pdata).1.arr.length = obj.size) := by
  obtain ⟨h0, hu, hf, hrlt, hlen⟩ := hwf
  have hift : (if (true : Bool) then obj.size else obj.size - obj.used) = obj.size := rfl
  constructor
  · by_cases hg : pdata = [] ∨ obj.size = 0
    · rw [V2.writeFlag_eq_guard _ _ _ hg]
      have hpe : pdata = [] := by
        rcases hg with h | h
        · exact h
        · omega
      exact ⟨Nat.zero_le _, fun _ => rfl⟩
    · by_cases h2 : (if (true : Bool) then obj.size else obj.size - obj.used) < pdata.length
      · rw [V2.write_eq_reject _ _ _ hg h2]
        exact ⟨Nat.zero_le _, fun _ => rfl⟩
      · have hnlt : ¬ obj.size < pdata.length := by
          rw [hift] at h2
          exact h2
        refine ⟨?_, fun hlt => absurd hlt hnlt⟩
        by_cases h3 : (true : Bool) = true ∧ obj.size - obj.used <
            min pdata.length (if (true : Bool) then obj.size else obj.size - obj.used)
        · rw [V2.write_eq_cover _ _ _ hg h2 h3]
          show min pdata.length (if (true : Bool) then obj.size else obj.size - obj.used) ≤
            obj.size
          rw [hift]
          exact Nat.min_le_right _ _
        · rw [V2.write_eq_plain _ _ _ hg h2 h3]
          show min pdata.length (if (true : Bool) then obj.size else obj.size - obj.used) ≤
            obj.size
          rw [hift]
          exact Nat.min_le_right _ _
  · by_cases hg : pdata = [] ∨ obj.size = 0
    · rw [V1.writeForce_eq_guard _ _ hg]
      have hpe : pdata = [] := by
        rcases hg with h | h
        · exact h
        · omega
      rw [hpe]
      exact ⟨rfl, hu, hlen⟩
    · rw [V1.writeForce_eq_main _ _ hg]
      obtain ⟨b1, b2, b3⟩ := wfFold_basic pdata obj hu
      exact ⟨rfl, b2, b3.trans hlen⟩

/-- A fresh capacity-2 buffer. -/
def smallBuf : Ringbuf := { arr := [0, 0], size := 2, used := 0, front := 0, rear := 0 }

/-- C3 counterexample: `ringbuf_writeForce` on a capacity-2 buffer with
a 3-byte payload returns 3, more than the capacity (the claim says the
returned count is at most the capacity). -/
theorem C3_counterexample : smallBuf.size < (V1.ringbuf_writeForce smallBuf [1, 2, 3]).2 := by
  decide

/-- Witness for C3 at the capacity-2 buffer and a 3-byte payload. -/
theorem C3_force_write_bounds_witness :
    WF smallBuf ∧
    (((V2.ringbuf_write smallBuf [1, 2, 3] true).2 ≤ smallBuf.size ∧
      (smallBuf.size < ([1, 2, 3] : List Nat).length →
        V2.ringbuf_write smallBuf [1, 2, 3] true = (smallBuf, 0))) ∧
    ((V1.ringbuf_writeForce smallBuf [1, 2, 3]).2 = ([1, 2, 3] : List Nat).length ∧
      (V1.ringbuf_writeForce smallBuf [1, 2, 3]).1.used ≤ smallBuf.size ∧
      (V1.ringbuf_writeForce smallBuf [1, 2, 3]).1.arr.length = smallBuf.size)) :=
  ⟨by decide, C3_force_write_bounds smallBuf [1, 2, 3] (by decide)⟩

/-- C7 (amended): for capacities up to 65534, a forced write whose
length exceeds the free space but not the capacity evicts the oldest
bytes: `front` advances by exactly `length - free`, `used` saturates at
the capacity, the returned count is the requested length, and the
logical contents become the old contents minus the evicted prefix,
followed by the payload. -/
theorem C7_force_eviction (obj : Ringbuf) (pdata : List Nat) (hwf : WF obj)
    (hinv : obj.rear = (obj.front + obj.used) % obj.size)
    (hsz : obj.size ≤ 65534)
    (hover : obj.size - obj.used < pdata.length) (hcap : pdata.length ≤ obj.size) :
    (V1.ringbuf_writeForce obj pdata).2 = pdata.length ∧
    (V1.ringbuf_writeForce obj pdata).1.used = obj.size ∧
    (V1.ringbuf_writeForce obj pdata).1.front =
      (obj.front + (pdata.length - (obj.size - obj.used))) % obj.size ∧
    contents (V1.ringbuf_writeForce obj pdata).1 =
      (contents obj).drop (pdata.length - (obj.size - obj.used)) ++ pdata := by
  obtain ⟨h0, hu, hf, hrlt, hlen⟩ := hwf
  have hg : ¬(pdata = [] ∨ obj.size = 0) := by
    push_neg
    constructor
    · intro he
      rw [he] at hover
      simp at hover
    · omega
  rw [V1.writeForce_eq_main _ _ hg]
  obtain ⟨g1, g2, g3, g4, g5⟩ := wfFold_spec pdata obj h0 hsz hlen hf hu hinv
  refine ⟨rfl, ?_, ?_, ?_⟩
  · rw [g3]
    omega
  · rw [g4]
    congr 1
    omega
  · rw [g5]
    have hd : obj.used + pdata.length - obj.size = pdata.length - (obj.size - obj.used) := by
      omega
    rw [hd, List.drop_append_of_le_length (by rw [contents_length]; omega)]

/-- The spec's overwrite example: capacity 4 holding `[1,2,3,4]`. -/
def evictEx : Ringbuf := { arr := [1, 2, 3, 4], size := 4, used := 4, front := 0, rear := 0 }

/-- Witness for C7: `write_force([5,6])` on `[1,2,3,4]` yields logical
contents `[3,4,5,6]` with `used = 4`. -/
theorem C7_force_eviction_witness :
    (V1.ringbuf_writeForce evictEx [5, 6]).2 = 2 ∧
    (V1.ringbuf_writeForce evictEx [5, 6]).1.used = 4 ∧
    contents (V1.ringbuf_writeForce evictEx [5, 6]).1 = [3, 4, 5, 6] := by
  obtain ⟨w1, w2, w3, w4⟩ := C7_force_eviction evictEx [5, 6] (by decide) (by decide)
    (by decide) (by decide) (by decide)
  exact ⟨w1, w2, w4.trans (by decide)⟩

/-- The full buffer of the maximal capacity 65535. -/
def fullMaxBuf : Ringbuf :=
  { arr := List.replicate 65535 0, size := 65535, used := 65535, front := 0, rear := 0 }

/-- C7 counterexample: on the full capacity-65535 buffer (free space 0),
forcing one byte should, per the claim, advance `front` by 1 and leave
`used` saturated at the capacity; instead the 16-bit `used++` wraps to
0, so `used` drops to 0 and `front` does not move. -/
theorem C7_counterexample :
    fullMaxBuf.size - fullMaxBuf.used < ([42] : List Nat).length ∧
    ([42] : List Nat).length ≤ fullMaxBuf.size ∧
    (V1.ringbuf_writeForce fullMaxBuf [42]).1.used = 0 ∧
    (V1.ringbuf_writeForce fullMaxBuf [42]).1.front = fullMaxBuf.front := by
  refine ⟨?_, ?_, ?_, ?_⟩
  · show 65535 - 65535 < 1
    omega
  · show 1 ≤ 65535
    omega
  · rfl
  · rfl

/-- C6: when more bytes are requested than are stored, the strict read
reads nothing and leaves the state untouched, while the best-effort
read returns `used`, copies out exactly the logical contents, and
leaves the buffer empty. -/
theorem C6_strict_read (obj : Ringbuf) (length : Nat) (hwf : WF obj)
    (hgt : obj.used < length) :
    V2.ringbuf_read obj length true = (obj, [], 0) ∧
    (V2.ringbuf_read obj length false).2.2 = obj.used ∧
    (V2.ringbuf_read obj length false).2.1 = contents obj ∧
    (V2.ringbuf_read obj length false).1.used = 0 := by
  obtain ⟨h0, hu, hf, hrlt, hlen⟩ := hwf
  by_cases hu0 : obj.used = 0
  · have hg : length = 0 ∨ obj.used = 0 := Or.inr hu0
    rw [V2.readFlag_eq_guard _ _ _ hg, V2.readFlag_eq_guard _ _ _ hg]
    refine ⟨rfl, ?_, ?_, ?_⟩
    · show (0 : Nat) = obj.used
      omega
    · show ([] : List Nat) = contents obj
      rw [contents_nil obj hu0]
    · show obj.used = 0
      exact hu0
  · have hg : ¬(length = 0 ∨ obj.used = 0) := by
      push_neg
      exact ⟨by omega, hu0⟩
    refine ⟨V2.read_eq_strict _ _ _ hg ⟨rfl, hgt⟩, ?_, ?_, ?_⟩ <;>
      rw [V2.readFlag_eq_main _ _ _ hg (fun hx => by simp at hx)]
    · show (if obj.used < length then obj.used else length) = obj.used
      rw [if_pos hgt]
    · show (readLoop obj (if obj.used < length then obj.used else length)).2 = contents obj
      rw [if_pos hgt, readLoop_bytes obj.used obj hf]
      rfl
    · show obj.used - (if obj.used < length then obj.used else length) = 0
      rw [if_pos hgt]
      omega

/-- The spec's strict-read example: a buffer holding 3 bytes. -/
def strictReadBuf : Ringbuf := { arr := [7, 8, 9, 0], size := 4, used := 3, front := 0, rear := 3 }

/-- Witness for C6: with `used = 3`, `read(length=5, strict=true)`
returns 0 and changes nothing; `read(length=5, strict=false)` returns 3
and empties the buffer. -/
theorem C6_strict_read_witness :
    V2.ringbuf_read strictReadBuf 5 true = (strictReadBuf, [], 0) ∧
    (V2.ringbuf_read strictReadBuf 5 false).2.2 = strictReadBuf.used ∧
    (V2.ringbuf_read strictReadBuf 5 false).2.1 = contents strictReadBuf ∧
    (V2.ringbuf_read strictReadBuf 5 false).1.used = 0 :=
  C6_strict_read strictReadBuf 5 (by decide) (by decide)

/-- C8 (amended): `ringbuf_remove` discards everything and zeroes all
three cursors when the buffer is non-empty and `|length| >= used`; on an
empty buffer (or `length = 0`) it returns 0 and leaves the state — in
particular stale `front`/`rear` values — untouched.  With
`0 < length < used` it advances `front` (FIFO discard); with
`-used < length < 0` it moves `rear` back (LIFO discard, keeping the
oldest bytes).  The returned count is non-negative in every case. -/
theorem C8_remove_semantics (obj : Ringbuf) (length : Int) (hwf : WF obj) :
    ((obj.used = 0 ∨ length = 0) → ringbuf_remove obj length = (obj, 0)) ∧
    (0 < obj.used → obj.used ≤ length.natAbs →
      ringbuf_remove obj length = ({ obj with front := 0, rear := 0, used := 0 }, obj.used)) ∧
    (0 < length → length.natAbs < obj.used →
      (ringbuf_remove obj length).2 = length.toNat ∧
      (ringbuf_remove obj length).1.front = (obj.front + length.toNat) % obj.size ∧
      (ringbuf_remove obj length).1.used = obj.used - length.toNat ∧
      contents (ringbuf_remove obj length).1 = (contents obj).drop length.toNat) ∧
    (length < 0 → length.natAbs < obj.used →
      (ringbuf_remove obj length).2 = length.natAbs ∧
      (ringbuf_remove obj length).1.used = obj.used - length.natAbs ∧
      contents (ringbuf_remove obj length).1 =
        (contents obj).take (obj.used - length.natAbs)) := by
  obtain ⟨h0, hu, hf, hrlt, hlen⟩ := hwf
  refine ⟨?_, ?_, ?_, ?_⟩
  · intro hg
    exact remove_eq_guard obj length (by omega)
  · intro hpos habs
    have hg : ¬(length = 0 ∨ obj.used = 0) := by
      push_neg
      constructor
      · intro he
        rw [he] at habs
        simp at habs
        omega
      · omega
    exact remove_eq_all obj length hg habs
  · intro hpos hlt
    have hg : ¬(length = 0 ∨ obj.used = 0) := by
      push_neg
      exact ⟨by omega, by omega⟩
    rw [remove_eq_fifo obj length hg (by omega) hpos]
    refine ⟨rfl, rfl, rfl, ?_⟩
    show (List.range (obj.used - length.toNat)).map
        (fun i => byteAt obj.arr (((obj.front + length.toNat) % obj.size + i) % obj.size)) =
      (contents obj).drop length.toNat
    unfold contents
    rw [drop_range_map _ _ _ (by omega)]
    apply List.map_congr_left
    intro i _
    rw [Nat.mod_add_mod]
    have hn : obj.front + length.toNat + i = obj.front + (length.toNat + i) := by omega
    rw [hn]
  · intro hneg hlt
    have hg : ¬(length = 0 ∨ obj.used = 0) := by
      push_neg
      exact ⟨by omega, by omega⟩
    rw [remove_eq_lifo obj length hg (by omega) (by omega)]
    have hun : ((obj.used : Int) + length).toNat = obj.used - length.natAbs := by omega
    refine ⟨rfl, ?_, ?_⟩
    · show ((obj.used : Int) + length).toNat = obj.used - length.natAbs
      exact hun
    · show (List.range (((obj.used : Int) + length).toNat)).map
          (fun i => byteAt obj.arr ((obj.front + i) % obj.size)) =
        (contents obj).take (obj.used - length.natAbs)
      rw [hun]
      unfold contents
      rw [take_range_map _ _ _ (by omega)]

/-- The spec's LIFO example: logical contents `[a,b,c,d]` as bytes
`[97,98,99,100]`. -/
def lifoEx : Ringbuf := { arr := [97, 98, 99, 100], size := 4, used := 4, front := 0, rear := 0 }

/-- Witness for C8: `remove(-2)` on `[a,b,c,d]` returns 2 and leaves the
logical contents `[a,b]`. -/
theorem C8_remove_semantics_witness :
    (ringbuf_remove lifoEx (-2)).2 = 2 ∧
    contents (ringbuf_remove lifoEx (-2)).1 = [97, 98] := by
  obtain ⟨-, -, -, h4⟩ := C8_remove_semantics lifoEx (-2) (by decide)
  obtain ⟨w1, w2, w3⟩ := h4 (by decide) (by decide)
  exact ⟨w1.trans (by decide), w3.trans (by decide)⟩

/-- A drained buffer whose cursors legitimately sit at 2 (write 2 bytes
then read them back). -/
def staleCursorBuf : Ringbuf := { arr := [9, 9, 9], size := 3, used := 0, front := 2, rear := 2 }

/-- C8 counterexample: on an empty buffer `abs(length) >= used` holds
for any `length`, and the claim then requires all cursors to be reset to
zero; the code's `used == 0` guard returns 0 without touching `front`,
which stays at 2. -/
theorem C8_counterexample :
    staleCursorBuf.used ≤ (1 : Int).natAbs ∧
    (ringbuf_remove staleCursorBuf 1).2 = 0 ∧
    (ringbuf_remove staleCursorBuf 1).1.front = 2 := by decide

/-- C9: when the payload fits into the free space, the two files'
non-force writes return the same count and produce identical states;
when it does not fit, `ringbuf.c` truncates (stores exactly the free
space, saturating `used` at the capacity) while `part_000` rejects the
whole request and changes nothing. -/
theorem C9_write_variants (obj : Ringbuf) (pdata : List Nat) (hwf : WF obj)
    (hinv : obj.rear = (obj.front + obj.used) % obj.size) :
    (pdata.length ≤ obj.size - obj.used →
      V1.ringbuf_write obj pdata = V2.ringbuf_write obj pdata false) ∧
    (obj.size - obj.used < pdata.length →
      (V1.ringbuf_write obj pdata).2 = obj.size - obj.used ∧
      (V1.ringbuf_write obj pdata).1.used = obj.size ∧
      contents (V1.ringbuf_write obj pdata).1 =
        contents obj ++ pdata.take (obj.size - obj.used) ∧
      V2.ringbuf_write obj pdata false = (obj, 0)) := by
  obtain ⟨h0, hu, hf, hrlt, hlen⟩ := hwf
  have hiff : (if (false : Bool) then obj.size else obj.size - obj.used) =
      obj.size - obj.used := rfl
  constructor
  · intro hfit
    by_cases hpe : pdata = []
    · rw [V1.write_eq_guard _ _ (Or.inl hpe), V2.writeFlag_eq_guard _ _ _ (Or.inl hpe)]
    · have hg : ¬(pdata = [] ∨ obj.size = 0) := by
        push_neg
        exact ⟨hpe, by omega⟩
      have h2 : ¬(if (false : Bool) then obj.size else obj.size - obj.used) < pdata.length := by
        rw [hiff]
        omega
      have h3 : ¬((false : Bool) = true ∧ obj.size - obj.used <
          min pdata.length (if (false : Bool) then obj.size else obj.size - obj.used)) :=
        fun hx => by simp at hx
      rw [V1.write_eq_main _ _ hg, V2.write_eq_plain _ _ _ hg h2 h3, hiff]
      have hmin : min pdata.length (obj.size - obj.used) = pdata.length := by omega
      rw [hmin, List.take_length]
      obtain ⟨a1, a2, a3, a4, a5⟩ := loops_agree pdata obj obj rfl rfl rfl rfl
      obtain ⟨u1, u2, u3⟩ := writeLoop_used_front pdata obj
      exact Prod.ext
        (Ringbuf.ext_fields a1.symm (u3.trans a3.symm) u1 (u2.trans a4.symm) a2.symm) rfl
  · intro hover
    have hpe : pdata ≠ [] := by
      intro he
      rw [he] at hover
      simp at hover
    have hg : ¬(pdata = [] ∨ obj.size = 0) := by
      push_neg
      exact ⟨hpe, by omega⟩
    have h2 : (if (false : Bool) then obj.size else obj.size - obj.used) < pdata.length := by
      rw [hiff]
      omega
    have hmin : min pdata.length (obj.size - obj.used) = obj.size - obj.used := by omega
    refine ⟨?_, ?_, ?_, V2.write_eq_reject _ _ _ hg h2⟩
    · rw [V1.write_eq_main _ _ hg]
      show min pdata.length (obj.size - obj.used) = obj.size - obj.used
      exact hmin
    · rw [V1.write_eq_main _ _ hg]
      show (V1.writeLoop obj (pdata.take (min pdata.length (obj.size - obj.used)))).used =
        obj.size
      obtain ⟨u1, -, -⟩ :=
        writeLoop_used_front (pdata.take (min pdata.length (obj.size - obj.used))) obj
      rw [u1, List.length_take]
      omega
    · rw [V1.write_eq_main _ _ hg]
      show contents (V1.writeLoop obj (pdata.take (min pdata.length (obj.size - obj.used)))) =
        contents obj ++ pdata.take (obj.size - obj.used)
      obtain ⟨hc, -⟩ :=
        writeLoop_contents (pdata.take (min pdata.length (obj.size - obj.used))) obj
          h0 hlen hinv (by rw [List.length_take]; omega)
      rw [hc, hmin]

/-- A partially filled capacity-3 buffer (one byte stored). -/
def writeVarBuf : Ringbuf := { arr := [0, 0, 0], size := 3, used := 1, front := 0, rear := 1 }

/-- Witness for C9: a 3-byte request against 2 free bytes — `ringbuf.c`
truncates to 2 while `part_000` rejects with 0. -/
theorem C9_write_variants_witness :
    WF writeVarBuf ∧
    (([7, 8, 9] : List Nat).length ≤ writeVarBuf.size - writeVarBuf.used →
      V1.ringbuf_write writeVarBuf [7, 8, 9] = V2.ringbuf_write writeVarBuf [7, 8, 9] false) ∧
    (writeVarBuf.size - writeVarBuf.used < ([7, 8, 9] : List Nat).length →
      (V1.ringbuf_write writeVarBuf [7, 8, 9]).2 = writeVarBuf.size - writeVarBuf.used ∧
      (V1.ringbuf_write writeVarBuf [7, 8, 9]).1.used = writeVarBuf.size ∧
      contents (V1.ringbuf_write writeVarBuf [7, 8, 9]).1 =
        contents writeVarBuf ++ ([7, 8, 9] : List Nat).take
          (writeVarBuf.size - writeVarBuf.used) ∧
      V2.ringbuf_write writeVarBuf [7, 8, 9] false = (writeVarBuf, 0)) := by
  obtain ⟨w1, w2⟩ := C9_write_variants writeVarBuf [7, 8, 9] (by decide) (by decide)
  exact ⟨by decide, w1, w2⟩

/-- C5: writing `N ≤ capacity` bytes into a freshly initialised buffer
and then reading `N` bytes returns exactly the original bytes in order,
leaving the buffer empty. -/
theorem C5_roundtrip (size : Nat) (arr0 data : List Nat) (b0 : Ringbuf)
    (hinit : ringbuf_init arr0 size = some b0) (hlen0 : arr0.length = size)
    (hdlen : data.length ≤ size) :
    (V1.ringbuf_read (V1.ringbuf_write b0 data).1 data.length).2.1 = data ∧
    ringbuf_isEmpty (V1.ringbuf_read (V1.ringbuf_write b0 data).1 data.length).1 = true := by
  unfold ringbuf_init at hinit
  split at hinit
  · exact absurd hinit (by simp)
  · next hsz0 =>
      have hb0 : ({ arr := arr0, size := size, used := 0, front := 0, rear := 0 } : Ringbuf) = b0 :=
        Option.some_inj.mp hinit
      subst hb0
      have h0 : 0 < size := by omega
      by_cases hde : data = []
      · subst hde
        rw [V1.write_eq_guard _ _ (Or.inl rfl)]
        simp only [List.length_nil]
        rw [V1.read_eq_guard _ _ (Or.inl rfl)]
        exact ⟨rfl, rfl⟩
      · have hg : ¬(data = [] ∨
            ({ arr := arr0, size := size, used := 0, front := 0, rear := 0 } : Ringbuf).size = 0) := by
          push_neg
          exact ⟨hde, hsz0⟩
        have hmin : min data.length
            (({ arr := arr0, size := size, used := 0, front := 0, rear := 0 } : Ringbuf).size -
              ({ arr := arr0, size := size, used := 0, front := 0, rear := 0 } : Ringbuf).used) =
            data.length := by
          show min data.length (size - 0) = data.length
          omega
        have hw1 : (V1.ringbuf_write
            { arr := arr0, size := size, used := 0, front := 0, rear := 0 } data).1 =
            V1.writeLoop { arr := arr0, size := size, used := 0, front := 0, rear := 0 } data := by
          rw [V1.write_eq_main _ _ hg, hmin, List.take_length]
        rw [hw1]
        have hr0 : ({ arr := arr0, size := size, used := 0, front := 0, rear := 0 } : Ringbuf).rear =
            (({ arr := arr0, size := size, used := 0, front := 0, rear := 0 } : Ringbuf).front +
              ({ arr := arr0, size := size, used := 0, front := 0, rear := 0 } : Ringbuf).used) %
            ({ arr := arr0, size := size, used := 0, front := 0, rear := 0 } : Ringbuf).size := by
          show (0 : Nat) = (0 + 0) % size
          simp
        obtain ⟨ws, wf, wu, wr⟩ :=
          writeLoop_cursors data { arr := arr0, size := size, used := 0, front := 0, rear := 0 } hr0
        obtain ⟨hc, hl⟩ :=
          writeLoop_contents data { arr := arr0, size := size, used := 0, front := 0, rear := 0 }
            h0 (by show arr0.length = size; exact hlen0) hr0
            (by show 0 + data.length ≤ size; omega)
        have hcnil : contents
            ({ arr := arr0, size := size, used := 0, front := 0, rear := 0 } : Ringbuf) = [] :=
          contents_nil _ rfl
        rw [hcnil, List.nil_append] at hc
        set S1 := V1.writeLoop { arr := arr0, size := size, used := 0, front := 0, rear := 0 } data
          with hS1
        have hused1 : S1.used = data.length := by
          rw [wu]
          show 0 + data.length = data.length
          omega
        have hfr1 : S1.front < S1.size := by
          rw [wf, ws]
          exact h0
        have hdne : data.length ≠ 0 := by
          intro hx
          exact hde (List.length_eq_zero.mp hx)
        have hgr : ¬(data.length = 0 ∨ S1.used = 0) := by
          push_neg
          constructor
          · exact hdne
          · rw [hused1]
            exact hdne
        rw [V1.read_eq_main _ _ hgr]
        have hrl : (if data.length ≤ S1.used then data.length else S1.used) = data.length := by
          rw [hused1, if_pos (le_refl _)]
        constructor
        · show (readLoop S1 (if data.length ≤ S1.used then data.length else S1.used)).2 = data
          rw [hrl, readLoop_bytes data.length S1 hfr1]
          have : (List.range data.length).map
              (fun i => byteAt S1.arr ((S1.front + i) % S1.size)) = contents S1 := by
            unfold contents
            rw [hused1]
          rw [this, hc]
        · show (S1.used - (if data.length ≤ S1.used then data.length else S1.used) == 0) = true
          rw [hrl, hused1]
          simp

/-- Witness for C5: round-trip of three bytes through a fresh
capacity-4 buffer. -/
theorem C5_roundtrip_witness :
    (V1.ringbuf_read
      (V1.ringbuf_write { arr := [0, 0, 0, 0], size := 4, used := 0, front := 0, rear := 0 }
        [11, 22, 33]).1 3).2.1 = [11, 22, 33] ∧
    ringbuf_isEmpty (V1.ringbuf_read
      (V1.ringbuf_write { arr := [0, 0, 0, 0], size := 4, used := 0, front := 0, rear := 0 }
        [11, 22, 33]).1 3).1 = true :=
  C5_roundtrip 4 [0, 0, 0, 0] [11, 22, 33] _ (by decide) (by decide) (by decide)
